import Mathlib

/-!
Verification of the terminalnode mind-map editor (Go) against its
natural-language specification.

The Go source is shallowly embedded: Go `float64` values are modelled as
exact rationals (ℚ), Go `int` as `Int` (or `Nat` where the Go value is a
length or a counter that is nonnegative in every reachable state), Go
strings as `String` / `List Char` with `len` modelled as character count,
and the Go `map[string]*Node` as an association list whose lookup returns
the first matching entry.  In-place mutation through pointers is modelled
by returning the updated structure.
-/

set_option maxHeartbeats 1000000
set_option linter.unusedVariables false

/-! ## Node sizing (node.go: wrapText, calculateNodeSize) -/

/-- Whitespace test used by Go `strings.Fields` (unicode.IsSpace on the
Latin-1 range: space, tab, newline, vertical tab, form feed, carriage
return, NEL, NBSP). -/
def goIsSpace (c : Char) : Bool :=
  c == ' ' || c == '\t' || c == '\n' || c == Char.ofNat 11 || c == Char.ofNat 12 ||
    c == '\r' || c == Char.ofNat 133 || c == Char.ofNat 160

/-- Go `strings.Fields`: split around runs of whitespace, returning the
maximal non-whitespace words in order (split at every whitespace
character, then drop the empty pieces). -/
def goFields (l : List Char) : List (List Char) :=
  (l.splitOnP goIsSpace).filter (fun w => w.length ≠ 0)

/-- The hard-break loop of wrapText
(`for len(word) > maxWidth { append word[:maxWidth]; word = word[maxWidth:] }`),
written with explicit fuel so that it is structurally recursive: every
iteration consumes maxWidth ≥ 1 characters, so `word.length` iterations
always suffice (wrapText only calls this with maxWidth ≥ 5; at
maxWidth = 0 the Go loop would not terminate at all). -/
def hardBreakFuel (fuel maxWidth : Nat) (word : List Char) : List (List Char) × List Char :=
  match fuel with
  | 0 => ([], word)
  | fuel + 1 =>
    if maxWidth < word.length ∧ 0 < maxWidth then
      let p := hardBreakFuel fuel maxWidth (word.drop maxWidth)
      (word.take maxWidth :: p.1, p.2)
    else
      ([], word)

/-- The hard-break loop at its sufficient fuel: the chunks of size
maxWidth emitted for an over-long word, and the remaining tail. -/
def hardBreak (maxWidth : Nat) (word : List Char) : List (List Char) × List Char :=
  hardBreakFuel word.length maxWidth word

/-- The per-paragraph greedy word loop of wrapText, carrying the mutable
`currentLine`; emits the lines appended to `wrappedLines` by this
paragraph (the trailing non-empty currentLine included). -/
def wrapWords (maxWidth : Nat) : List (List Char) → List Char → List (List Char)
  | [], currentLine => if 0 < currentLine.length then [currentLine] else []
  | word :: rest, currentLine =>
    if 0 < currentLine.length ∧ maxWidth < currentLine.length + 1 + word.length then
      if maxWidth < word.length then
        (if 0 < currentLine.length then [currentLine] else []) ++
          (let p := hardBreak maxWidth word
           p.1 ++ wrapWords maxWidth rest p.2)
      else
        currentLine :: wrapWords maxWidth rest word
    else
      if 0 < currentLine.length then
        wrapWords maxWidth rest (currentLine ++ ' ' :: word)
      else
        wrapWords maxWidth rest word

/-- One paragraph of wrapText: an empty paragraph or a paragraph with no
words contributes a single empty line, otherwise the greedy word loop
runs with an empty currentLine. -/
def wrapParagraph (maxWidth : Nat) (paragraph : List Char) : List (List Char) :=
  if paragraph.length = 0 then [[]]
  else
    let words := goFields paragraph
    if words.length = 0 then [[]]
    else wrapWords maxWidth words []

/-- Go `wrapText(text, maxWidth)`: clamp the width to at least 5, split on
explicit newlines, wrap each paragraph, and return a single empty line if
nothing was produced. -/
def wrapText (text : List Char) (maxWidthIn : Nat) : List (List Char) :=
  let maxWidth := if maxWidthIn < 5 then 5 else maxWidthIn
  let wrappedLines := (text.splitOn '\n').flatMap (wrapParagraph maxWidth)
  if wrappedLines.length = 0 then [[]] else wrappedLines

/-- Go `calculateNodeSize(text)`: wrap at the fixed budget 22; height is
line count plus 2, width is the longest line plus 4 floored at 10. -/
def calculateNodeSize (text : String) : Int × Int :=
  let lines := wrapText text.data 22
  let height : Int := (lines.length : Int) + 2
  let widest : Nat := lines.foldl (fun w line => if w < line.length then line.length else w) 0
  let width : Int := (widest : Int) + 4
  let width : Int := if width < 10 then 10 else width
  (width, height)

/-! ## Data model (node.go, camera.go) -/

/-- A mind-map node (node.go).  Go float64 fields are modelled as ℚ. -/
structure Node where
  ID : String
  Text : String
  X : ℚ
  Y : ℚ
  Width : Int
  Height : Int
  ParentID : String
  Color : String
  Links : List String
deriving Repr, DecidableEq

/-- An edge between two nodes (node.go). -/
structure Edge where
  FromID : String
  ToID : String
deriving Repr, DecidableEq

/-- Go `NewNode(id, text, x, y)`. -/
def NewNode (id text : String) (x y : ℚ) : Node :=
  { ID := id, Text := text, X := x, Y := y,
    Width := (calculateNodeSize text).1, Height := (calculateNodeSize text).2,
    ParentID := "", Color := "", Links := [] }

/-- The camera (camera.go). -/
structure Camera where
  X : ℚ
  Y : ℚ
  Zoom : ℚ
  TargetX : ℚ
  TargetY : ℚ
  TargetZoom : ℚ
deriving Repr, DecidableEq

/-- Go `NewCamera()`. -/
def NewCamera : Camera :=
  { X := 0, Y := 0, Zoom := 1, TargetX := 0, TargetY := 0, TargetZoom := 1 }

/-- Go `math.Round`: round to the nearest integer, halves away from zero.
(Mathlib `round` rounds halves up, which is away from zero for
nonnegative arguments.) -/
def goRound (x : ℚ) : Int :=
  if x < 0 then -round (-x) else round x

/-- Go `Camera.WorldToScreen` (camera.go); the Go `int(math.Round(v))`
truncation of an integral float is the identity, so the result is
`goRound` of the unrounded coordinate. -/
def Camera.WorldToScreen (c : Camera) (wx wy : ℚ) (screenWidth screenHeight : Int) :
    Int × Int :=
  let centerX : ℚ := (screenWidth : ℚ) / 2
  let centerY : ℚ := (screenHeight : ℚ) / 2
  let sx := (wx - c.X) * c.Zoom + centerX
  let sy := (wy - c.Y) * c.Zoom + centerY
  (goRound sx, goRound sy)

/-- Go `Camera.ScreenToWorld` (camera.go). -/
def Camera.ScreenToWorld (c : Camera) (sx sy screenWidth screenHeight : Int) : ℚ × ℚ :=
  let centerX : ℚ := (screenWidth : ℚ) / 2
  let centerY : ℚ := (screenHeight : ℚ) / 2
  (((sx : ℚ) - centerX) / c.Zoom + c.X, ((sy : ℚ) - centerY) / c.Zoom + c.Y)

/-- Go `Camera.Pan`: mutates only the targets. -/
def Camera.Pan (c : Camera) (dx dy : ℚ) : Camera :=
  { c with TargetX := c.TargetX + dx, TargetY := c.TargetY + dy }

/-- Go `Camera.ZoomIn`: multiply the target zoom by 1.2 and clamp at 4.0.
The float literal 1.2 is modelled as the exact rational 6/5. -/
def Camera.ZoomIn (c : Camera) : Camera :=
  let t := c.TargetZoom * (6 / 5 : ℚ)
  { c with TargetZoom := if t > 4 then 4 else t }

/-- Go `Camera.ZoomOut`: multiply the target zoom by 0.8 and clamp at 0.25.
The float literal 0.8 is modelled as the exact rational 4/5. -/
def Camera.ZoomOut (c : Camera) : Camera :=
  let t := c.TargetZoom * (4 / 5 : ℚ)
  { c with TargetZoom := if t < 1 / 4 then 1 / 4 else t }

/-- Go `Camera.GetViewportCenter`. -/
def Camera.GetViewportCenter (c : Camera) : ℚ × ℚ :=
  (c.X, c.Y)

/-- Go `Node.GetCenter`. -/
def Node.GetCenter (n : Node) : ℚ × ℚ :=
  (n.X + (n.Width : ℚ) / 2, n.Y + (n.Height : ℚ) / 2)

/-! ## The document model (part of model.go) -/

/-- The Bubble Tea model, restricted to the fields the core operations
read or write (the UI-only fields: mode, edit buffer, viewport size,
styles, link source are omitted — none of the embedded operations touch
them).  The Go `map[string]*Node` is modelled as an association list;
`NextID` and `NextColorIndex` are Go ints that are nonnegative in every
reachable state and are modelled as ℕ. -/
structure Model where
  Nodes : List (String × Node)
  Edges : List Edge
  Camera : Camera
  Selected : String
  NextID : Nat
  StatusMsg : String
  ColorPalette : List String
  NextColorIndex : Nat
deriving Repr, DecidableEq

/-- Lookup in the node map (Go `m.Nodes[id]`, nil modelled as `none`). -/
def lookupNode (l : List (String × Node)) (k : String) : Option Node :=
  match l with
  | [] => none
  | p :: rest => if p.1 = k then some p.2 else lookupNode rest k

/-- Store into the node map (Go `m.Nodes[id] = node`): replace the first
entry with that key, or append a fresh entry. -/
def mapInsert (k : String) (v : Node) : List (String × Node) → List (String × Node)
  | [] => [(k, v)]
  | p :: rest => if p.1 = k then (k, v) :: rest else p :: mapInsert k v rest

/-- Go `NewModel()` (the style fields are omitted). -/
def NewModel : Model :=
  { Nodes := [("0", NewNode "0" "Root Idea" 0 0)],
    Edges := [],
    Camera := NewCamera,
    Selected := "0",
    NextID := 1,
    StatusMsg := "",
    ColorPalette := ["#FF6B6B", "#4ECDC4", "#45B7D1", "#FFA07A",
                     "#98D8C8", "#F7DC6F", "#BB8FCE", "#85C1E2"],
    NextColorIndex := 0 }

/-- Go `Model.GetSelectedNode`. -/
def Model.GetSelectedNode (m : Model) : Option Node :=
  if m.Selected ≠ "" then lookupNode m.Nodes m.Selected else none

/-- Go `Model.GetChildrenOf`: all nodes whose ParentID is the given id. -/
def Model.GetChildrenOf (m : Model) (parentID : String) : List Node :=
  (m.Nodes.map Prod.snd).filter (fun n => n.ParentID = parentID)

/-- Go `Model.AddEdge`: no-op (with a status message) when the ordered
pair already exists, otherwise append the edge and record the target in
the source node's Links. -/
def Model.AddEdge (m : Model) (fromID toID : String) : Model :=
  if m.Edges.any (fun e => e.FromID = fromID ∧ e.ToID = toID) then
    { m with StatusMsg := "Edge already exists" }
  else
    let m1 := { m with Edges := m.Edges ++ [Edge.mk fromID toID] }
    let m2 :=
      match lookupNode m1.Nodes fromID with
      | some node =>
        { m1 with Nodes := mapInsert fromID { node with Links := node.Links ++ [toID] } m1.Nodes }
      | none => m1
    { m2 with StatusMsg := "Created link " ++ fromID ++ " → " ++ toID }

/-- Go `Model.pushDownNodesBelow`: every node whose Y is at least the
threshold moves down by the given amount. -/
def Model.pushDownNodesBelow (m : Model) (thresholdY amount : ℚ) : Model :=
  { m with Nodes := m.Nodes.map (fun p =>
      if p.2.Y ≥ thresholdY then (p.1, { p.2 with Y := p.2.Y + amount }) else p) }

/-- The node built by Go `Model.AddChildNode` lines 163-176: NewNode with
the parent reference, colored from the palette for a root child,
inheriting the parent's color otherwise (no color when the parent id is
empty or dangling). -/
def addChildNodeVal (m : Model) (id text : String) (x y : ℚ) (parentID : String) : Node :=
  let node0 := { NewNode id text x y with ParentID := parentID }
  if parentID = "0" then
    { node0 with Color := m.ColorPalette.getD (m.NextColorIndex % m.ColorPalette.length) "" }
  else if parentID ≠ "" then
    match lookupNode m.Nodes parentID with
    | some parent => { node0 with Color := parent.Color }
    | none => node0
  else node0

/-- The tail of Go `Model.AddChildNode` (create the node, assign its
color and advance the palette cursor for a root child, store it, create
the parent edge, select it). -/
def addChildFinish (m : Model) (id text : String) (x y : ℚ) (parentID : String) : Model :=
  let node := addChildNodeVal m id text x y parentID
  let m1 := if parentID = "0" then { m with NextColorIndex := m.NextColorIndex + 1 } else m
  let m2 := { m1 with Nodes := mapInsert id node m1.Nodes }
  let m3 := if parentID ≠ "" then m2.AddEdge parentID id else m2
  { m3 with Selected := id, StatusMsg := "Created child node " ++ id }

/-- Go `Model.AddChildNode`: place the new node to the right of the
selected node; align with the parent when it has no children, otherwise
go below the lowest bottom edge found by a scan that starts from the
parent itself, and push pre-existing nodes down by the default height 3
plus the vertical spacing 3. -/
def Model.AddChildNode (m : Model) (text : String) : Model :=
  let id := toString m.NextID
  let m1 := { m with NextID := m.NextID + 1 }
  match m1.GetSelectedNode with
  | some selectedNode =>
    let spacing : ℚ := 5
    let verticalSpacing : ℚ := 3
    let x := selectedNode.X + (selectedNode.Width : ℚ) + spacing
    let parentID := selectedNode.ID
    let existingChildren := m1.GetChildrenOf selectedNode.ID
    if 0 < existingChildren.length then
      let lowest := existingChildren.foldl
        (fun p child =>
          if child.Y + (child.Height : ℚ) > p.1 + (p.2 : ℚ) then (child.Y, child.Height) else p)
        ((selectedNode.Y, selectedNode.Height) : ℚ × Int)
      let y := lowest.1 + (lowest.2 : ℚ) + verticalSpacing
      let spaceNeeded : ℚ := 3 + verticalSpacing
      addChildFinish (m1.pushDownNodesBelow y spaceNeeded) id text x y parentID
    else
      addChildFinish m1 id text x selectedNode.Y parentID
  | none =>
    let p := m1.Camera.GetViewportCenter
    addChildFinish m1 id text p.1 p.2 ""

/-- The node built by Go `Model.AddSiblingNode` lines 219-230: NewNode
with the selected node's parent, colored from the palette when that
parent is the root and otherwise inheriting the selected node's color. -/
def addSiblingNodeVal (m2 : Model) (id text : String) (x y : ℚ) (selectedNode : Node) : Node :=
  let node0 := { NewNode id text x y with ParentID := selectedNode.ParentID }
  if selectedNode.ParentID = "0" then
    { node0 with Color := m2.ColorPalette.getD (m2.NextColorIndex % m2.ColorPalette.length) "" }
  else
    { node0 with Color := selectedNode.Color }

/-- Go `Model.AddSiblingNode`: fall back to child placement when nothing
is selected or the root is selected; otherwise place at the same X just
below the selected node, push pre-existing nodes down, color from the
palette when the sibling is a root child and otherwise inherit the
selected node's color, and connect to the shared parent. -/
def Model.AddSiblingNode (m : Model) (text : String) : Model :=
  match m.GetSelectedNode with
  | none => m.AddChildNode text
  | some selectedNode =>
    if selectedNode.ID = "0" then m.AddChildNode text
    else
      let id := toString m.NextID
      let m1 := { m with NextID := m.NextID + 1 }
      let verticalSpacing : ℚ := 3
      let x := selectedNode.X
      let y := selectedNode.Y + (selectedNode.Height : ℚ) + verticalSpacing
      let spaceNeeded : ℚ := 3 + verticalSpacing
      let m2 := m1.pushDownNodesBelow y spaceNeeded
      let node := addSiblingNodeVal m2 id text x y selectedNode
      let m3 :=
        if selectedNode.ParentID = "0" then { m2 with NextColorIndex := m2.NextColorIndex + 1 }
        else m2
      let m4 := { m3 with Nodes := mapInsert id node m3.Nodes }
      let m5 := if selectedNode.ParentID ≠ "" then m4.AddEdge selectedNode.ParentID id else m4
      { m5 with Selected := id, StatusMsg := "Created sibling node " ++ id }

/-- Go `Model.DeleteNode`: the root is protected; otherwise remove the
node, drop every edge that references it, and if it was selected pick the
first remaining entry (Go iterates its map in an unspecified order; the
association list order stands in for it). -/
def Model.DeleteNode (m : Model) (id : String) : Model :=
  if id = "0" then { m with StatusMsg := "Cannot delete root node" }
  else
    let m1 := { m with Nodes := m.Nodes.filter (fun p => p.1 ≠ id) }
    let m2 := { m1 with Edges := m1.Edges.filter (fun e => e.FromID ≠ id ∧ e.ToID ≠ id) }
    let m3 :=
      if m2.Selected = id then
        { m2 with Selected := match m2.Nodes with | [] => "" | p :: _ => p.1 }
      else m2
    { m3 with StatusMsg := "Deleted node " ++ id }

/-! ## Spatial selection (update.go) -/

/-- Go helper `absFloat`. -/
def absFloat (x : ℚ) : ℚ :=
  if x < 0 then -x else x

/-- The direction test and scoring of one candidate in Go
`selectNodeInDirection` (update.go lines 329-358): the Go flag
`inDirection` together with `primaryDist` / `secondaryDist` is modelled
as an optional score — `none` is the `continue`, and the score is
`secondaryDist * 2.0 + primaryDist`. -/
def dirScore (dx dy cx cy : ℚ) (node : Node) : Option ℚ :=
  let nc := node.GetCenter
  let relX := nc.1 - cx
  let relY := nc.2 - cy
  if dx ≠ 0 then
    if (dx > 0 ∧ relX > 0) ∨ (dx < 0 ∧ relX < 0) then
      some (absFloat relY * 2 + absFloat relX)
    else none
  else if dy ≠ 0 then
    if (dy > 0 ∧ relY > 0) ∨ (dy < 0 ∧ relY < 0) then
      some (absFloat relX * 2 + absFloat relY)
    else none
  else none

/-- The loop body of Go `selectNodeInDirection`: skip the selected node,
skip candidates that are not in the requested direction, and keep the
strictly better score (`bestScore < 0 || score < bestScore`, bestScore
starting at the sentinel -1). -/
def selStep (selId : String) (dx dy cx cy : ℚ) (acc : Option Node × ℚ) (node : Node) :
    Option Node × ℚ :=
  if node.ID = selId then acc
  else
    match dirScore dx dy cx cy node with
    | none => acc
    | some score => if acc.2 < 0 ∨ score < acc.2 then (some node, score) else acc

/-- Go `Model.selectNodeInDirection`: scan all nodes, keep the eligible
candidate with the strictly best score, and select it if one was found.
The scan order is the association list order, standing in for the
unspecified Go map order. -/
def Model.selectNodeInDirection (m : Model) (dx dy : ℚ) : Model :=
  match m.GetSelectedNode with
  | none => m
  | some selectedNode =>
    let c := selectedNode.GetCenter
    let best := (m.Nodes.map Prod.snd).foldl (selStep m.Selected dx dy c.1 c.2)
      ((none, -1) : Option Node × ℚ)
    match best.1 with
    | some bestNode => { m with Selected := bestNode.ID, StatusMsg := "" }
    | none => m

/-! ## Persistence (persistence.go) -/

/-- The serializable record (persistence.go `MindMapData`); the camera
target fields carry a `json:"-"` tag and are not part of the record, so
the `Camera` stored here is read back with whatever target values the
decoder left (the zero value), which `LoadFromFile` immediately
overwrites. -/
structure MindMapData where
  Nodes : List (String × Node)
  Edges : List Edge
  Camera : Camera
deriving Repr, DecidableEq

/-- Decimal digits to a number (for the id scan of LoadFromFile). -/
def digitsToNat (ds : List Char) : Nat :=
  ds.foldl (fun a c => a * 10 + (c.toNat - 48)) 0

/-- Go `fmt.Sscanf(id, "%d", &numID)`: succeeds iff the string starts
with an optional minus sign followed by at least one digit, returning the
value of that prefix. -/
def scanDecimal (s : String) : Option Int :=
  match s.data with
  | '-' :: rest =>
    let ds := rest.takeWhile Char.isDigit
    if ds.length = 0 then none else some (-(digitsToNat ds : Int))
  | l =>
    let ds := l.takeWhile Char.isDigit
    if ds.length = 0 then none else some ((digitsToNat ds : Int))

/-- Go `Model.LoadFromFile` after a successful read and unmarshal:
install the decoded nodes, edges and camera verbatim, re-anchor the
camera targets, select the first node when nothing is selected, and
reseed NextID to one past the largest numeric id (the running maximum
starts at 0 and never decreases, so the final `.toNat` is exact). -/
def Model.LoadFromFile (m : Model) (data : MindMapData) : Model :=
  let m1 := { m with Nodes := data.Nodes, Edges := data.Edges, Camera := data.Camera }
  let m2 := { m1 with Camera := { m1.Camera with
      TargetX := m1.Camera.X, TargetY := m1.Camera.Y, TargetZoom := m1.Camera.Zoom } }
  let m3 :=
    if m2.Selected = "" ∧ 0 < m2.Nodes.length then
      { m2 with Selected := match m2.Nodes with | [] => "" | p :: _ => p.1 }
    else m2
  let maxID : Int := m3.Nodes.foldl
    (fun mx p =>
      match scanDecimal p.1 with
      | some numID => if numID > mx then numID else mx
      | none => mx) 0
  { m3 with NextID := (maxID + 1).toNat }

/-! ## Edge rasterization (renderer.go) -/

/-- One cell of the render grid (renderer.go `ColoredCell`). -/
structure ColoredCell where
  Char : Char
  Color : String
deriving Repr, DecidableEq

/-- The render grid, row major. -/
abbrev Grid := List (List ColoredCell)

/-- The blank cell the grid is initialized with. -/
def blankCell : ColoredCell :=
  { Char := ' ', Color := "" }

/-- Read a grid cell (out-of-range reads give the blank cell). -/
def getCell (grid : Grid) (y x : Nat) : ColoredCell :=
  (grid.getD y []).getD x blankCell

/-- Go helper `abs` on ints. -/
def goAbs (x : Int) : Int :=
  if x < 0 then -x else x

/-- Go `Model.getLineChar`: pick the glyph from the slope class. -/
def getLineChar (dx dy : Int) : Char :=
  if dx = 0 ∧ dy = 0 then '·'
  else
    let absDx := goAbs dx
    let absDy := goAbs dy
    if absDx > absDy * 2 then '─'
    else if absDy > absDx * 2 then '│'
    else if (dx > 0 ∧ dy < 0) ∨ (dx < 0 ∧ dy > 0) then '╱'
    else '╲'

/-- One guarded plot of Go `drawLineSegment`: write the slope glyph at
(x, y) only when the coordinates are in bounds (Go checks the first row's
length) and the cell currently holds a blank. -/
def plotPoint (grid : Grid) (x y dx dy : Int) (color : String) : Grid :=
  if 0 ≤ y ∧ y < (grid.length : Int) ∧ 0 ≤ x ∧ x < ((grid.headD []).length : Int) then
    let row := grid.getD y.toNat []
    if (row.getD x.toNat blankCell).Char = ' ' then
      grid.set y.toNat (row.set x.toNat { Char := getLineChar dx dy, Color := color })
    else grid
  else grid

/-- The Bresenham loop of Go `drawLineSegment`.  The Go `for` loop
reaches (x2, y2) after max(absDx, absDy) iterations (standard Bresenham,
absDx and absDy fixed from the original endpoints), so the fuel
`absDx + absDy` given by `drawLineSegment` never runs out. -/
def bresenham (fuel : Nat) (grid : Grid) (x1 y1 x2 y2 absDx absDy sx sy err dx dy : Int)
    (color : String) : Grid :=
  match fuel with
  | 0 => grid
  | fuel + 1 =>
    if x1 = x2 ∧ y1 = y2 then grid
    else
      let e2 := 2 * err
      let err1 := if e2 > -absDy then err - absDy else err
      let x1a := if e2 > -absDy then x1 + sx else x1
      let err2 := if e2 < absDx then err1 + absDx else err1
      let y1a := if e2 < absDx then y1 + sy else y1
      let grid1 := plotPoint grid x1a y1a dx dy color
      bresenham fuel grid1 x1a y1a x2 y2 absDx absDy sx sy err2 dx dy color

/-- Go `Model.drawLineSegment`: plot the start point, then walk the
segment with Bresenham, plotting each visited cell. -/
def drawLineSegment (grid : Grid) (x1 y1 x2 y2 : Int) (color : String) : Grid :=
  let dx := x2 - x1
  let dy := y2 - y1
  let grid1 := plotPoint grid x1 y1 dx dy color
  if x1 = x2 ∧ y1 = y2 then grid1
  else
    let absDx := goAbs dx
    let absDy := goAbs dy
    let sx : Int := if x1 < x2 then 1 else -1
    let sy : Int := if y1 < y2 then 1 else -1
    bresenham (absDx + absDy).toNat grid1 x1 y1 x2 y2 absDx absDy sx sy (absDx - absDy) dx dy color

/-! ## Association list lemmas -/

theorem lookupNode_cons (p : String × Node) (rest : List (String × Node)) (k : String) :
    lookupNode (p :: rest) k = if p.1 = k then some p.2 else lookupNode rest k := rfl

theorem lookupNode_mapInsert (k k' : String) (v : Node) (l : List (String × Node)) :
    lookupNode (mapInsert k v l) k' = if k' = k then some v else lookupNode l k' := by
  induction l with
  | nil =>
    by_cases h : k' = k
    · subst h; simp [mapInsert, lookupNode]
    · simp [mapInsert, lookupNode, h, Ne.symm h]
  | cons p rest ih =>
    simp only [mapInsert]
    by_cases hp : p.1 = k
    · rw [if_pos hp, lookupNode_cons, lookupNode_cons]
      by_cases h : k' = k
      · rw [if_pos h, if_pos h.symm]
      · rw [if_neg h, if_neg (fun e : k = k' => h e.symm), if_neg (fun e : p.1 = k' => h (e ▸ hp))]
    · rw [if_neg hp, lookupNode_cons, lookupNode_cons]
      by_cases h : p.1 = k'
      · rw [if_pos h, if_pos h, if_neg (fun e : k' = k => hp (h.trans e))]
      · rw [if_neg h, if_neg h, ih]

theorem lookupNode_filter_ne (l : List (String × Node)) (id k : String) (h : k ≠ id) :
    lookupNode (l.filter (fun p => p.1 ≠ id)) k = lookupNode l k := by
  induction l with
  | nil => rfl
  | cons p rest ih =>
    rw [List.filter_cons]
    by_cases hp : p.1 = id
    · rw [if_neg (by simp [hp]), ih, lookupNode_cons,
        if_neg (fun e : p.1 = k => h (e.symm.trans hp))]
    · rw [if_pos (by simp [hp]), lookupNode_cons, lookupNode_cons, ih]

theorem lookupNode_filter_self (l : List (String × Node)) (id : String) :
    lookupNode (l.filter (fun p => p.1 ≠ id)) id = none := by
  induction l with
  | nil => rfl
  | cons p rest ih =>
    rw [List.filter_cons]
    by_cases hp : p.1 = id
    · rw [if_neg (by simp [hp]), ih]
    · rw [if_pos (by simp [hp]), lookupNode_cons, if_neg hp, ih]

/-! ## Camera round trip (spec §8, claim C5) -/

theorem goRound_sub_le_half (x : ℚ) : |((goRound x : ℤ) : ℚ) - x| ≤ 1 / 2 := by
  unfold goRound
  split
  · push_cast
    have e : (-((round (-x) : ℤ) : ℚ)) - x = -(((round (-x) : ℤ) : ℚ) - (-x)) := by ring
    rw [e, abs_neg, abs_sub_comm]
    exact abs_sub_round (-x)
  · rw [abs_sub_comm]
    exact abs_sub_round x

theorem roundTrip_bound (z v off ctr : ℚ) (hz : 0 < z) :
    |(((goRound ((v - off) * z + ctr) : ℤ) : ℚ) - ctr) / z + off - v| ≤ 1 / (2 * z) := by
  have hz' : z ≠ 0 := ne_of_gt hz
  have e : (((goRound ((v - off) * z + ctr) : ℤ) : ℚ) - ctr) / z + off - v
      = (((goRound ((v - off) * z + ctr) : ℤ) : ℚ) - ((v - off) * z + ctr)) / z := by
    field_simp
    ring
  rw [e, abs_div, abs_of_pos hz]
  have h2 := goRound_sub_le_half ((v - off) * z + ctr)
  calc |((goRound ((v - off) * z + ctr) : ℤ) : ℚ) - ((v - off) * z + ctr)| / z
      ≤ (1 / 2) / z := by exact (div_le_div_iff_of_pos_right hz).mpr h2
    _ = 1 / (2 * z) := by rw [div_div]

/-- Claim C5: for every camera with positive zoom and every viewport,
ScreenToWorld inverts WorldToScreen up to the rounding to the nearest
integer screen cell (the recovered world point is within half a screen
cell, that is 1 / (2 zoom) world units, of the original on each axis);
and pan / zoom-in / zoom-out touch only the camera targets, never the
current zoom, so positivity of the zoom survives any sequence of pan and
zoom operations. -/
theorem worldToScreen_roundTrip (c : Camera) (w h : Int) (wx wy : ℚ) (hz : 0 < c.Zoom) :
    |(c.ScreenToWorld (c.WorldToScreen wx wy w h).1 (c.WorldToScreen wx wy w h).2 w h).1 - wx|
        ≤ 1 / (2 * c.Zoom) ∧
    |(c.ScreenToWorld (c.WorldToScreen wx wy w h).1 (c.WorldToScreen wx wy w h).2 w h).2 - wy|
        ≤ 1 / (2 * c.Zoom) ∧
    (∀ dx dy : ℚ, (c.Pan dx dy).Zoom = c.Zoom) ∧
    c.ZoomIn.Zoom = c.Zoom ∧ c.ZoomOut.Zoom = c.Zoom := by
  refine ⟨?_, ?_, fun dx dy => rfl, rfl, rfl⟩
  · exact roundTrip_bound c.Zoom wx c.X ((w : ℚ) / 2) hz
  · exact roundTrip_bound c.Zoom wy c.Y ((h : ℚ) / 2) hz

/-- A fixed camera used to instantiate the round-trip theorem. -/
def camOne : Camera :=
  { X := 3, Y := -2, Zoom := 1, TargetX := 3, TargetY := -2, TargetZoom := 1 }

/-- Witness for C5 at a concrete camera, viewport and world point. -/
theorem worldToScreen_roundTrip_w :
    0 < camOne.Zoom ∧
      |(camOne.ScreenToWorld (camOne.WorldToScreen (7/3) (1/2) 80 24).1
          (camOne.WorldToScreen (7/3) (1/2) 80 24).2 80 24).1 - 7/3|
        ≤ 1 / (2 * camOne.Zoom) :=
  ⟨by norm_num [camOne], (worldToScreen_roundTrip camOne 80 24 (7/3) (1/2) (by norm_num [camOne])).1⟩

/-! ## Loading never recomputes node sizes (claim C1) -/

/-- A stored node whose width and height disagree with calculateNodeSize
of its text. -/
def staleSizeNode : Node :=
  { ID := "0", Text := "hi", X := 0, Y := 0, Width := 50, Height := 9,
    ParentID := "", Color := "", Links := [] }

/-- A mind-map file carrying the stale-size node. -/
def staleSizeData : MindMapData :=
  { Nodes := [("0", staleSizeNode)], Edges := [], Camera := NewCamera }

/-- Counterexample to claim C1: after LoadFromFile the loaded node keeps
the width 50 and height 9 stored in the file, but calculateNodeSize of
its text "hi" is (10, 3) — LoadFromFile does not recompute sizes. -/
theorem loadFromFile_stale_size_example :
    ∃ n, lookupNode (NewModel.LoadFromFile staleSizeData).Nodes "0" = some n ∧
      (n.Width, n.Height) ≠ calculateNodeSize n.Text := by
  refine ⟨staleSizeNode, rfl, by decide⟩

/-- Claim C1 as amended: LoadFromFile installs the node map of the file
verbatim — every loaded node keeps exactly the Width and Height stored in
the file, whatever its text is. -/
theorem loadFromFile_keeps_stored_nodes (m : Model) (d : MindMapData) :
    (m.LoadFromFile d).Nodes = d.Nodes := by
  unfold Model.LoadFromFile
  dsimp only
  split <;> rfl

/-! ## Sibling of the root falls back to child placement (claim C6) -/

/-- Claim C6: with the root selected (and the root entry, when present,
carrying its own id, as every reachable document does), AddSiblingNode
produces exactly the document AddChildNode produces. -/
theorem addSiblingNode_root_falls_back (m : Model) (text : String)
    (hsel : m.Selected = "0")
    (hid : ∀ n, lookupNode m.Nodes "0" = some n → n.ID = "0") :
    m.AddSiblingNode text = m.AddChildNode text := by
  have hgs : m.GetSelectedNode = lookupNode m.Nodes "0" := by
    simp [Model.GetSelectedNode, hsel]
  unfold Model.AddSiblingNode
  rw [hgs]
  cases h : lookupNode m.Nodes "0" with
  | none => rfl
  | some n =>
    have hn : n.ID = "0" := hid n h
    simp [hn]

/-- Witness for C6 on the fresh document. -/
theorem addSiblingNode_root_falls_back_w :
    NewModel.AddSiblingNode "x" = NewModel.AddChildNode "x" :=
  addSiblingNode_root_falls_back NewModel "x" rfl (by
    intro n h
    rw [show lookupNode NewModel.Nodes "0" = some (NewNode "0" "Root Idea" 0 0) from rfl] at h
    cases h
    rfl)

/-! ## First writer wins in edge rasterization (claim C10) -/

theorem getD_set_ne {α : Type} (l : List α) (i j : Nat) (a d : α) (h : i ≠ j) :
    (l.set i a).getD j d = l.getD j d := by
  induction l generalizing i j with
  | nil => simp
  | cons b t ih =>
    cases i with
    | zero =>
      cases j with
      | zero => exact absurd rfl h
      | succ j => simp
    | succ i =>
      cases j with
      | zero => simp
      | succ j => simpa using ih i j (by omega)

theorem getD_set_self {α : Type} (l : List α) (i : Nat) (a d : α) (h : i < l.length) :
    (l.set i a).getD i d = a := by
  induction l generalizing i with
  | nil => simp at h
  | cons b t ih =>
    cases i with
    | zero => simp
    | succ i => simpa using ih i (by simpa using h)

theorem getCell_plotPoint (grid : Grid) (x y dx dy : Int) (color : String) (i j : Nat)
    (h : (getCell grid i j).Char ≠ ' ') :
    getCell (plotPoint grid x y dx dy color) i j = getCell grid i j := by
  unfold plotPoint
  dsimp only
  split
  case isTrue hb =>
    split
    case isTrue hblank =>
      unfold getCell
      by_cases hy : y.toNat = i
      · subst hy
        rw [getD_set_self _ _ _ _ (by omega)]
        by_cases hx : x.toNat = j
        · subst hx
          exact absurd hblank (by simpa [getCell] using h)
        · rw [getD_set_ne _ _ _ _ _ hx]
      · rw [getD_set_ne _ _ _ _ _ hy]
    case isFalse => rfl
  case isFalse => rfl

theorem getCell_bresenham (fuel : Nat) (grid : Grid)
    (x1 y1 x2 y2 absDx absDy sx sy err dx dy : Int) (color : String) (i j : Nat)
    (h : (getCell grid i j).Char ≠ ' ') :
    getCell (bresenham fuel grid x1 y1 x2 y2 absDx absDy sx sy err dx dy color) i j
      = getCell grid i j := by
  induction fuel generalizing grid x1 y1 err with
  | zero => rfl
  | succ fuel ih =>
    rw [bresenham]
    dsimp only
    split
    · rfl
    · have hp := getCell_plotPoint grid
        (if 2 * err > -absDy then x1 + sx else x1)
        (if 2 * err < absDx then y1 + sy else y1) dx dy color i j h
      exact (ih _ _ _ _ (by rw [hp]; exact h)).trans hp

/-- Claim C10: drawLineSegment writes glyphs only into blank cells — any
grid cell already holding a non-blank character keeps both its character
and its color (first writer wins). -/
theorem drawLineSegment_first_writer_wins (grid : Grid) (x1 y1 x2 y2 : Int) (color : String)
    (i j : Nat) (h : (getCell grid i j).Char ≠ ' ') :
    getCell (drawLineSegment grid x1 y1 x2 y2 color) i j = getCell grid i j := by
  unfold drawLineSegment
  have hp := getCell_plotPoint grid x1 y1 (x2 - x1) (y2 - y1) color i j h
  split
  · exact hp
  · exact (getCell_bresenham _ _ _ _ _ _ _ _ _ _ _ _ _ _ i j (by rw [hp]; exact h)).trans hp

/-- A grid with one already-painted cell. -/
def inkGrid : Grid :=
  [[{ Char := 'X', Color := "red" }, blankCell], [blankCell, blankCell]]

/-- Witness for C10: drawing a segment across the painted grid leaves the
painted cell untouched. -/
theorem drawLineSegment_first_writer_wins_w :
    (getCell inkGrid 0 0).Char ≠ ' ' ∧
      getCell (drawLineSegment inkGrid 0 0 1 1 "blue") 0 0 = getCell inkGrid 0 0 :=
  ⟨by decide, drawLineSegment_first_writer_wins inkGrid 0 0 1 1 "blue" 0 0 (by decide)⟩

/-! ## Word wrap line bound (claim C4) -/

theorem splitOnP_mem_false {α : Type} (P : α → Bool) (l w : List α)
    (hw : w ∈ l.splitOnP P) : ∀ c ∈ w, P c = false := by
  suffices h : ∀ (xs acc : List α), (∀ c ∈ acc, P c = false) →
      ∀ w ∈ List.splitOnP.go P xs acc, ∀ c ∈ w, P c = false by
    exact h l [] (by simp) w hw
  intro xs
  induction xs with
  | nil =>
    intro acc hacc w hw c hc
    simp only [List.splitOnP.go, List.mem_singleton] at hw
    subst hw
    exact hacc c (by simpa using hc)
  | cons a t ih =>
    intro acc hacc w hw c hc
    rw [List.splitOnP.go] at hw
    by_cases hpa : P a
    · rw [if_pos hpa] at hw
      rcases List.mem_cons.mp hw with hw | hw
      · subst hw
        exact hacc c (by simpa using hc)
      · exact ih [] (by simp) w hw c hc
    · rw [if_neg hpa] at hw
      refine ih (a :: acc) ?_ w hw c hc
      intro d hd
      rcases List.mem_cons.mp hd with hd | hd
      · subst hd
        simp at hpa
        exact hpa
      · exact hacc d hd

theorem goFields_no_space (l : List Char) (w : List Char) (hw : w ∈ goFields l) :
    ' ' ∉ w := by
  intro hsp
  have := splitOnP_mem_false goIsSpace l w (List.mem_of_mem_filter hw) ' ' hsp
  exact absurd this (by decide)

theorem hardBreakFuel_chunk_le (fuel mw : Nat) (w : List Char) :
    ∀ l ∈ (hardBreakFuel fuel mw w).1, l.length ≤ mw := by
  induction fuel generalizing w with
  | zero => intro l hl; simp [hardBreakFuel] at hl
  | succ fuel ih =>
    intro l hl
    rw [hardBreakFuel] at hl
    by_cases hc : mw < w.length ∧ 0 < mw
    · rw [if_pos hc] at hl
      dsimp only at hl
      rcases List.mem_cons.mp hl with hl | hl
      · subst hl; simpa using Nat.min_le_left mw w.length
      · exact ih (w.drop mw) l hl
    · rw [if_neg hc] at hl
      simp at hl

theorem hardBreakFuel_rest_le (fuel mw : Nat) (w : List Char) (hmw : 0 < mw)
    (hfuel : w.length ≤ fuel) : (hardBreakFuel fuel mw w).2.length ≤ mw := by
  induction fuel generalizing w with
  | zero =>
    dsimp only [hardBreakFuel]
    omega
  | succ fuel ih =>
    rw [hardBreakFuel]
    by_cases hc : mw < w.length ∧ 0 < mw
    · rw [if_pos hc]
      dsimp only
      exact ih (w.drop mw) (by simp; omega)
    · rw [if_neg hc]
      dsimp only
      omega

theorem hardBreakFuel_no_space (fuel mw : Nat) (w : List Char) (hw : ' ' ∉ w) :
    (∀ l ∈ (hardBreakFuel fuel mw w).1, ' ' ∉ l) ∧ ' ' ∉ (hardBreakFuel fuel mw w).2 := by
  induction fuel generalizing w with
  | zero => exact ⟨by simp [hardBreakFuel], by simpa [hardBreakFuel] using hw⟩
  | succ fuel ih =>
    rw [hardBreakFuel]
    by_cases hc : mw < w.length ∧ 0 < mw
    · rw [if_pos hc]
      dsimp only
      have hdrop : ' ' ∉ w.drop mw := fun hm => hw (List.drop_subset mw w hm)
      refine ⟨?_, (ih (w.drop mw) hdrop).2⟩
      intro l hl
      rcases List.mem_cons.mp hl with hl | hl
      · subst hl
        exact fun hm => hw (List.take_subset mw w hm)
      · exact (ih (w.drop mw) hdrop).1 l hl
    · rw [if_neg hc]
      exact ⟨by simp, hw⟩

theorem wrapWords_line_bound (mw : Nat) (hmw : 0 < mw) :
    ∀ (words : List (List Char)), (∀ w ∈ words, ' ' ∉ w) →
    ∀ (cur : List Char), cur.length ≤ mw ∨ ' ' ∉ cur →
    ∀ line ∈ wrapWords mw words cur, line.length ≤ mw ∨ ' ' ∉ line := by
  intro words
  induction words with
  | nil =>
    intro hwords cur hcur line hline
    rw [wrapWords] at hline
    split at hline
    · rw [List.mem_singleton] at hline
      subst hline
      exact hcur
    · simp at hline
  | cons word rest ih =>
    intro hwords cur hcur line hline
    have hwrest : ∀ w ∈ rest, ' ' ∉ w := fun w hw => hwords w (List.mem_cons_of_mem word hw)
    have hwword : ' ' ∉ word := hwords word (List.mem_cons_self word rest)
    rw [wrapWords] at hline
    split at hline
    case isTrue hc1 =>
      split at hline
      case isTrue hlong =>
        rw [if_pos hc1.1] at hline
        dsimp only at hline
        rcases List.mem_append.mp hline with hl | hl
        · rw [List.mem_singleton] at hl
          subst hl
          exact hcur
        · rcases List.mem_append.mp hl with hl | hl
          · exact Or.inl (hardBreakFuel_chunk_le word.length mw word line hl)
          · refine ih hwrest (hardBreak mw word).2 ?_ line hl
            exact Or.inl (hardBreakFuel_rest_le word.length mw word hmw le_rfl)
      case isFalse hlong =>
        rcases List.mem_cons.mp hline with hl | hl
        · subst hl
          exact hcur
        · exact ih hwrest word (Or.inr hwword) line hl
    case isFalse hc1 =>
      split at hline
      case isTrue hpos =>
        refine ih hwrest (cur ++ ' ' :: word) ?_ line hline
        left
        have : ¬ mw < cur.length + 1 + word.length := fun hlt => hc1 ⟨hpos, hlt⟩
        simp only [List.length_append, List.length_cons]
        omega
      case isFalse hpos =>
        exact ih hwrest word (Or.inr hwword) line hline

theorem wrapParagraph_line_bound (mw : Nat) (hmw : 0 < mw) (para : List Char) :
    ∀ line ∈ wrapParagraph mw para, line.length ≤ mw ∨ ' ' ∉ line := by
  intro line hline
  unfold wrapParagraph at hline
  split at hline
  · rw [List.mem_singleton] at hline
    subst hline
    exact Or.inl (Nat.zero_le mw)
  · dsimp only at hline
    split at hline
    · rw [List.mem_singleton] at hline
      subst hline
      exact Or.inl (Nat.zero_le mw)
    · exact wrapWords_line_bound mw hmw (goFields para) (goFields_no_space para) []
        (Or.inl (Nat.zero_le mw)) line hline

theorem wrapText_line_bound (text : List Char) (mwIn : Nat) :
    ∀ line ∈ wrapText text mwIn,
      line.length ≤ (if mwIn < 5 then 5 else mwIn) ∨ ' ' ∉ line := by
  intro line hline
  unfold wrapText at hline
  dsimp only at hline
  set mw := if mwIn < 5 then 5 else mwIn with hmw
  have hmwpos : 0 < mw := by rw [hmw]; split <;> omega
  split at hline
  · rw [List.mem_singleton] at hline
    subst hline
    exact Or.inl (Nat.zero_le _)
  · rcases List.mem_flatMap.mp hline with ⟨para, hpara, hline'⟩
    exact wrapParagraph_line_bound mw hmwpos para line hline'

/-- Counterexample to claim C4 as stated: wrapping a single word of 23
characters at the fixed budget 22 emits it whole as one line of 23
characters — the hard break only fires when the word is reached with a
non-empty current line, so a produced line can exceed maxWidth. -/
theorem wrapText_long_word_unbroken_example :
    ∃ line ∈ wrapText (String.data "aaaaaaaaaaaaaaaaaaaaaaa") 22, 22 < line.length := by
  refine ⟨String.data "aaaaaaaaaaaaaaaaaaaaaaa", by decide, by decide⟩

/-- Claim C4 as amended: wrapText at budget 22 splits on explicit line
breaks, packs words greedily, and hard-breaks an over-long word only when
it is reached with a non-empty current line; consequently every produced
line either fits in 22 characters or is a single whitespace-free word
placed alone on its line (which may exceed 22). -/
theorem wrapText_at_22_line_bound (text : List Char) :
    ∀ line ∈ wrapText text 22, line.length ≤ 22 ∨ ' ' ∉ line := by
  intro line hline
  have h := wrapText_line_bound text 22 line hline
  simpa using h

/-- Witness for C4 at a concrete text and line. -/
theorem wrapText_at_22_line_bound_w :
    String.data "hello world" ∈ wrapText (String.data "hello world") 22 ∧
      ((String.data "hello world").length ≤ 22 ∨ ' ' ∉ String.data "hello world") :=
  ⟨by decide, wrapText_at_22_line_bound (String.data "hello world") (String.data "hello world")
    (by decide)⟩

/-! ## Placement and deletion lemmas (claims C2, C3, C7, C8) -/

/-- All fields of a node except Links (AddEdge only ever touches Links). -/
def nodeCore (n : Node) : String × String × ℚ × ℚ × Int × Int × String × String :=
  (n.ID, n.Text, n.X, n.Y, n.Width, n.Height, n.ParentID, n.Color)

theorem core_some_ex {o : Option Node} {n0 : Node} (h : o.map nodeCore = some (nodeCore n0)) :
    ∃ n, o = some n ∧ nodeCore n = nodeCore n0 := by
  cases o with
  | none => simp at h
  | some n => exact ⟨n, rfl, by simpa using h⟩

theorem AddEdge_nodes_core (m : Model) (a b k : String) :
    (lookupNode (m.AddEdge a b).Nodes k).map nodeCore = (lookupNode m.Nodes k).map nodeCore := by
  unfold Model.AddEdge
  split
  · rfl
  · dsimp only
    cases h : lookupNode m.Nodes a with
    | none => rfl
    | some node =>
      dsimp only
      rw [lookupNode_mapInsert]
      by_cases hk : k = a
      · subst hk
        rw [if_pos rfl, h]
        rfl
      · rw [if_neg hk]

theorem AddEdge_misc (m : Model) (a b : String) :
    (m.AddEdge a b).NextColorIndex = m.NextColorIndex ∧
    (m.AddEdge a b).ColorPalette = m.ColorPalette ∧
    (m.AddEdge a b).NextID = m.NextID ∧
    (m.AddEdge a b).Camera = m.Camera := by
  unfold Model.AddEdge
  split
  · exact ⟨rfl, rfl, rfl, rfl⟩
  · dsimp only
    cases lookupNode m.Nodes a <;> exact ⟨rfl, rfl, rfl, rfl⟩

theorem lookupNode_pushDown (m : Model) (ty amt : ℚ) (k : String) :
    lookupNode (m.pushDownNodesBelow ty amt).Nodes k
      = (lookupNode m.Nodes k).map
          (fun n => if n.Y ≥ ty then { n with Y := n.Y + amt } else n) := by
  unfold Model.pushDownNodesBelow
  dsimp only
  induction m.Nodes with
  | nil => rfl
  | cons p rest ih =>
    rw [List.map_cons]
    by_cases hy : p.2.Y ≥ ty
    · rw [if_pos hy, lookupNode_cons, lookupNode_cons]
      by_cases hk : p.1 = k
      · rw [if_pos hk, if_pos hk]
        simp only [Option.map_some']
        rw [if_pos hy]
      · rw [if_neg hk, if_neg hk, ih]
    · rw [if_neg hy, lookupNode_cons, lookupNode_cons]
      by_cases hk : p.1 = k
      · rw [if_pos hk, if_pos hk]
        simp only [Option.map_some']
        rw [if_neg hy]
      · rw [if_neg hk, if_neg hk, ih]

/-- The lowest bottom edge among the parent and a list of its children:
what the scan of Go AddChildNode lines 139-147 actually computes (the
scan starts from the parent itself, not from the first child). -/
def maxBottom (s : Node) (children : List Node) : ℚ :=
  children.foldl (fun b c => max b (c.Y + (c.Height : ℚ))) (s.Y + (s.Height : ℚ))

theorem lowest_fold_eq_maxBottom (children : List Node) :
    ∀ init : ℚ × Int,
      (children.foldl
          (fun p child =>
            if child.Y + (child.Height : ℚ) > p.1 + (p.2 : ℚ) then (child.Y, child.Height) else p)
          init).1
        + ((children.foldl
            (fun p child =>
              if child.Y + (child.Height : ℚ) > p.1 + (p.2 : ℚ) then (child.Y, child.Height) else p)
            init).2 : ℚ)
      = children.foldl (fun b c => max b (c.Y + (c.Height : ℚ))) (init.1 + (init.2 : ℚ)) := by
  induction children with
  | nil => intro init; rfl
  | cons c rest ih =>
    intro init
    rw [List.foldl_cons, List.foldl_cons, ih]
    congr 1
    by_cases hgt : c.Y + (c.Height : ℚ) > init.1 + (init.2 : ℚ)
    · rw [if_pos hgt]
      dsimp only
      rw [max_eq_right (le_of_lt hgt)]
    · rw [if_neg hgt, max_eq_left (not_lt.mp hgt)]

theorem addChildNodeVal_fields (m : Model) (id text : String) (x y : ℚ) (pid : String) :
    (addChildNodeVal m id text x y pid).ID = id ∧
    (addChildNodeVal m id text x y pid).Text = text ∧
    (addChildNodeVal m id text x y pid).X = x ∧
    (addChildNodeVal m id text x y pid).Y = y ∧
    (addChildNodeVal m id text x y pid).ParentID = pid ∧
    (addChildNodeVal m id text x y pid).Width = (calculateNodeSize text).1 ∧
    (addChildNodeVal m id text x y pid).Height = (calculateNodeSize text).2 := by
  unfold addChildNodeVal
  dsimp only
  by_cases h0 : pid = "0"
  · rw [if_pos h0]
    exact ⟨rfl, rfl, rfl, rfl, rfl, rfl, rfl⟩
  · rw [if_neg h0]
    by_cases hemp : pid = ""
    · rw [if_neg (by simpa using hemp)]
      exact ⟨rfl, rfl, rfl, rfl, rfl, rfl, rfl⟩
    · rw [if_pos hemp]
      cases lookupNode m.Nodes pid <;> exact ⟨rfl, rfl, rfl, rfl, rfl, rfl, rfl⟩

theorem addChildNodeVal_color_root (m : Model) (id text : String) (x y : ℚ) :
    (addChildNodeVal m id text x y "0").Color
      = m.ColorPalette.getD (m.NextColorIndex % m.ColorPalette.length) "" := by
  unfold addChildNodeVal
  rw [if_pos rfl]

theorem addChildNodeVal_color_parent (m : Model) (id text : String) (x y : ℚ) (pid : String)
    (h0 : pid ≠ "0") (hemp : pid ≠ "") (parent : Node)
    (hp : lookupNode m.Nodes pid = some parent) :
    (addChildNodeVal m id text x y pid).Color = parent.Color := by
  unfold addChildNodeVal
  dsimp only
  rw [if_neg h0, if_pos hemp, hp]

theorem addSiblingNodeVal_fields (m2 : Model) (id text : String) (x y : ℚ) (s : Node) :
    (addSiblingNodeVal m2 id text x y s).ID = id ∧
    (addSiblingNodeVal m2 id text x y s).Text = text ∧
    (addSiblingNodeVal m2 id text x y s).X = x ∧
    (addSiblingNodeVal m2 id text x y s).Y = y ∧
    (addSiblingNodeVal m2 id text x y s).ParentID = s.ParentID ∧
    (addSiblingNodeVal m2 id text x y s).Width = (calculateNodeSize text).1 ∧
    (addSiblingNodeVal m2 id text x y s).Height = (calculateNodeSize text).2 ∧
    (addSiblingNodeVal m2 id text x y s).Color
      = (if s.ParentID = "0" then
          m2.ColorPalette.getD (m2.NextColorIndex % m2.ColorPalette.length) ""
        else s.Color) := by
  unfold addSiblingNodeVal
  dsimp only
  by_cases h0 : s.ParentID = "0"
  · rw [if_pos h0, if_pos h0]
    exact ⟨rfl, rfl, rfl, rfl, rfl, rfl, rfl, rfl⟩
  · rw [if_neg h0, if_neg h0]
    exact ⟨rfl, rfl, rfl, rfl, rfl, rfl, rfl, rfl⟩

theorem addChildFinish_lookup_self (m : Model) (id text : String) (x y : ℚ) (pid : String) :
    ∃ n, lookupNode (addChildFinish m id text x y pid).Nodes id = some n ∧
      nodeCore n = nodeCore (addChildNodeVal m id text x y pid) := by
  unfold addChildFinish
  dsimp only
  split
  · apply core_some_ex
    rw [AddEdge_nodes_core]
    dsimp only
    rw [lookupNode_mapInsert, if_pos rfl]
    rfl
  · refine ⟨addChildNodeVal m id text x y pid, ?_, rfl⟩
    dsimp only
    rw [lookupNode_mapInsert, if_pos rfl]

theorem addChildFinish_lookup_other (m : Model) (id text : String) (x y : ℚ) (pid k : String)
    (hk : k ≠ id) :
    (lookupNode (addChildFinish m id text x y pid).Nodes k).map nodeCore
      = (lookupNode m.Nodes k).map nodeCore := by
  unfold addChildFinish
  dsimp only
  have hm1 : (if pid = "0" then { m with NextColorIndex := m.NextColorIndex + 1 } else m).Nodes
      = m.Nodes := by split <;> rfl
  split
  · rw [AddEdge_nodes_core]
    dsimp only
    rw [lookupNode_mapInsert, if_neg hk, hm1]
  · dsimp only
    rw [lookupNode_mapInsert, if_neg hk, hm1]

theorem addChildFinish_misc (m : Model) (id text : String) (x y : ℚ) (pid : String) :
    (addChildFinish m id text x y pid).NextColorIndex
        = (if pid = "0" then m.NextColorIndex + 1 else m.NextColorIndex) ∧
    (addChildFinish m id text x y pid).ColorPalette = m.ColorPalette ∧
    (addChildFinish m id text x y pid).NextID = m.NextID ∧
    (addChildFinish m id text x y pid).Selected = id := by
  unfold addChildFinish
  dsimp only
  refine ⟨?_, ?_, ?_, rfl⟩
  · split
    · rw [(AddEdge_misc _ _ _).1]
      dsimp only
      split <;> rfl
    · dsimp only
      split <;> rfl
  · split
    · rw [(AddEdge_misc _ _ _).2.1]
      dsimp only
      split <;> rfl
    · dsimp only
      split <;> rfl
  · split
    · rw [(AddEdge_misc _ _ _).2.2.1]
      dsimp only
      split <;> rfl
    · dsimp only
      split <;> rfl

/-! ## Child placement (claim C2) -/

/-- A root whose text wraps to two lines: box height 4. -/
def exTallRoot : Node := NewNode "0" "aaaaaaaaaa bbbbbbbbbbbb" 0 0

/-- A one-line child of the root at y = 0: box height 3, bottom edge 3,
above the parent's bottom edge 4. -/
def exShortChild : Node := { NewNode "1" "x" 20 0 with ParentID := "0", Color := "#FF6B6B" }

/-- A document whose selected parent (the root) is taller than its only
child. -/
def mShortChild : Model :=
  { NewModel with
    Nodes := [("0", exTallRoot), ("1", exShortChild)]
    Selected := "0"
    NextID := 2 }

/-- Counterexample to claim C2 as stated: the parent's only child sits at
y = 0 with height 3, so the claim places the next child at
(0 + 3) + 3 = 6; but the scan for the lowest bottom edge starts from the
parent itself (height 4), so the code places it at (0 + 4) + 3 = 7. -/
theorem addChildNode_parent_seeded_example :
    (lookupNode (mShortChild.AddChildNode "y").Nodes "2").map Node.Y = some 7 ∧
      (7 : ℚ) ≠ 0 + 3 + 3 := by
  with_unfolding_all decide

/-- Claim C2 as amended: on a selected parent, the new child's x is
parent.x + parent.width + 5; with no existing children its y is the
parent's y, and otherwise its y is 3 below the lowest bottom edge among
the parent itself and its children (the scan is seeded with the parent,
so a child counts only when its bottom edge is lower than the
parent's). -/
theorem addChildNode_placement (m : Model) (text : String) (s : Node)
    (hs : m.GetSelectedNode = some s) :
    ∃ n, lookupNode (m.AddChildNode text).Nodes (toString m.NextID) = some n ∧
      n.X = s.X + (s.Width : ℚ) + 5 ∧
      n.Y = (if 0 < (m.GetChildrenOf s.ID).length
             then maxBottom s (m.GetChildrenOf s.ID) + 3
             else s.Y) := by
  have hgs : ({ m with NextID := m.NextID + 1 } : Model).GetSelectedNode = some s := hs
  unfold Model.AddChildNode
  dsimp only
  rw [hgs]
  dsimp only
  have hch : ({ m with NextID := m.NextID + 1 } : Model).GetChildrenOf s.ID
      = m.GetChildrenOf s.ID := rfl
  rw [hch]
  split
  case isTrue hlen =>
    obtain ⟨n, hn, hcore⟩ := addChildFinish_lookup_self
      (({ m with NextID := m.NextID + 1 } : Model).pushDownNodesBelow
        (((m.GetChildrenOf s.ID).foldl
            (fun p child =>
              if child.Y + (child.Height : ℚ) > p.1 + (p.2 : ℚ) then (child.Y, child.Height)
              else p) ((s.Y, s.Height) : ℚ × Int)).1
          + ((((m.GetChildrenOf s.ID).foldl
              (fun p child =>
                if child.Y + (child.Height : ℚ) > p.1 + (p.2 : ℚ) then (child.Y, child.Height)
                else p) ((s.Y, s.Height) : ℚ × Int)).2 : ℚ)) + 3)
        (3 + 3))
      (toString m.NextID) text (s.X + (s.Width : ℚ) + 5)
      (((m.GetChildrenOf s.ID).foldl
          (fun p child =>
            if child.Y + (child.Height : ℚ) > p.1 + (p.2 : ℚ) then (child.Y, child.Height)
            else p) ((s.Y, s.Height) : ℚ × Int)).1
        + ((((m.GetChildrenOf s.ID).foldl
            (fun p child =>
              if child.Y + (child.Height : ℚ) > p.1 + (p.2 : ℚ) then (child.Y, child.Height)
              else p) ((s.Y, s.Height) : ℚ × Int)).2 : ℚ)) + 3)
      s.ID
    simp only [nodeCore, Prod.mk.injEq] at hcore
    obtain ⟨hID, hText, hX, hY, hW, hH, hPID, hColor⟩ := hcore
    refine ⟨n, hn, ?_, ?_⟩
    · rw [hX]
      exact (addChildNodeVal_fields _ _ _ _ _ _).2.2.1
    · rw [hY, (addChildNodeVal_fields _ _ _ _ _ _).2.2.2.1,
        lowest_fold_eq_maxBottom (m.GetChildrenOf s.ID) ((s.Y, s.Height) : ℚ × Int)]
      rfl
  case isFalse hlen =>
    obtain ⟨n, hn, hcore⟩ := addChildFinish_lookup_self
      ({ m with NextID := m.NextID + 1 } : Model)
      (toString m.NextID) text (s.X + (s.Width : ℚ) + 5) s.Y s.ID
    simp only [nodeCore, Prod.mk.injEq] at hcore
    obtain ⟨hID, hText, hX, hY, hW, hH, hPID, hColor⟩ := hcore
    refine ⟨n, hn, ?_, ?_⟩
    · rw [hX]
      exact (addChildNodeVal_fields _ _ _ _ _ _).2.2.1
    · rw [hY, (addChildNodeVal_fields _ _ _ _ _ _).2.2.2.1]

/-! ## Push-down on insertion (claim C3) -/

theorem nodes_if_nci (c : Prop) [Decidable c] (m : Model) :
    (if c then { m with NextColorIndex := m.NextColorIndex + 1 } else m).Nodes = m.Nodes := by
  split <;> rfl

/-- The root of the push-down examples. -/
def exRoot : Node := NewNode "0" "Root Idea" 0 0

/-- A root child at y = 0 (height 3). -/
def exBranchA : Node := { NewNode "1" "x" 20 0 with ParentID := "0", Color := "#FF6B6B" }

/-- A root child at y = 10, below the insertion point. -/
def exBelow : Node := { NewNode "2" "z" 20 10 with ParentID := "0", Color := "#4ECDC4" }

/-- A document where creating a sibling of node 1 pushes node 2 down. -/
def mPushDown : Model :=
  { NewModel with
    Nodes := [("0", exRoot), ("1", exBranchA), ("2", exBelow)]
    Selected := "1"
    NextID := 3
    NextColorIndex := 2 }

/-- Counterexample to claim C3 as stated: the sibling created below node
1 has text that wraps to two lines, so its height is 4 and the claim
predicts a shift of 4 + 3 = 7 (node 2: 10 to 17); but the push-down uses
the hard-coded default height 3, shifting by 3 + 3 = 6 (node 2: 10 to
16). -/
theorem pushDown_ignores_actual_height_example :
    (lookupNode (mPushDown.AddSiblingNode "cccccccccccc dddddddddddd").Nodes "3").map Node.Height
        = some 4 ∧
      (lookupNode (mPushDown.AddSiblingNode "cccccccccccc dddddddddddd").Nodes "2").map Node.Y
        = some 16 ∧
      (16 : ℚ) ≠ 10 + (4 + 3) := by
  with_unfolding_all decide

/-- Claim C3 as amended: when child placement (on a parent with existing
children) or sibling placement inserts a node at its threshold y, every
pre-existing node whose y is at least that threshold moves down by
exactly 3 + 3 (the hard-coded default new-node height 3 plus the vertical
spacing 3, regardless of the created node's actual height), and every
other pre-existing node keeps its position (x is never touched). -/
theorem placement_pushes_pre_existing (m : Model) (text : String) (s : Node)
    (hs : m.GetSelectedNode = some s)
    (hfresh : lookupNode m.Nodes (toString m.NextID) = none) :
    (0 < (m.GetChildrenOf s.ID).length →
      ∀ k n0, lookupNode m.Nodes k = some n0 →
        ∃ n', lookupNode (m.AddChildNode text).Nodes k = some n' ∧ n'.X = n0.X ∧
          n'.Y = (if n0.Y ≥ maxBottom s (m.GetChildrenOf s.ID) + 3
                  then n0.Y + (3 + 3) else n0.Y)) ∧
    (s.ID ≠ "0" →
      ∀ k n0, lookupNode m.Nodes k = some n0 →
        ∃ n', lookupNode (m.AddSiblingNode text).Nodes k = some n' ∧ n'.X = n0.X ∧
          n'.Y = (if n0.Y ≥ s.Y + (s.Height : ℚ) + 3
                  then n0.Y + (3 + 3) else n0.Y)) := by
  have hgs : ({ m with NextID := m.NextID + 1 } : Model).GetSelectedNode = some s := hs
  have hch : ({ m with NextID := m.NextID + 1 } : Model).GetChildrenOf s.ID
      = m.GetChildrenOf s.ID := rfl
  constructor
  · intro hlen k n0 hk0
    have hkid : k ≠ toString m.NextID := by
      intro e
      rw [e, hfresh] at hk0
      exact Option.noConfusion hk0
    have hchain : (lookupNode (m.AddChildNode text).Nodes k).map nodeCore
        = some (nodeCore (if n0.Y ≥
              ((m.GetChildrenOf s.ID).foldl
                (fun p child =>
                  if child.Y + (child.Height : ℚ) > p.1 + (p.2 : ℚ) then (child.Y, child.Height)
                  else p) ((s.Y, s.Height) : ℚ × Int)).1
              + ((((m.GetChildrenOf s.ID).foldl
                  (fun p child =>
                    if child.Y + (child.Height : ℚ) > p.1 + (p.2 : ℚ) then (child.Y, child.Height)
                    else p) ((s.Y, s.Height) : ℚ × Int)).2 : ℚ)) + 3
            then { n0 with Y := n0.Y + (3 + 3) } else n0)) := by
      unfold Model.AddChildNode
      dsimp only
      rw [hgs]
      dsimp only
      rw [hch, if_pos hlen, addChildFinish_lookup_other _ _ _ _ _ _ k hkid, lookupNode_pushDown,
        show lookupNode ({ m with NextID := m.NextID + 1 } : Model).Nodes k = lookupNode m.Nodes k
          from rfl, hk0]
      rfl
    obtain ⟨n', hn', hc⟩ := core_some_ex hchain
    simp only [nodeCore, Prod.mk.injEq] at hc
    obtain ⟨_, _, hX, hY, _, _, _, _⟩ := hc
    refine ⟨n', hn', ?_, ?_⟩
    · rw [hX]
      split <;> rfl
    · rw [hY, lowest_fold_eq_maxBottom (m.GetChildrenOf s.ID) ((s.Y, s.Height) : ℚ × Int)]
      split
      case isTrue hcond =>
        rw [if_pos (show n0.Y ≥ maxBottom s (m.GetChildrenOf s.ID) + 3 from hcond)]
      case isFalse hcond =>
        rw [if_neg (show ¬ n0.Y ≥ maxBottom s (m.GetChildrenOf s.ID) + 3 from hcond)]
  · intro hroot k n0 hk0
    have hkid : k ≠ toString m.NextID := by
      intro e
      rw [e, hfresh] at hk0
      exact Option.noConfusion hk0
    have hchain : (lookupNode (m.AddSiblingNode text).Nodes k).map nodeCore
        = some (nodeCore (if n0.Y ≥ s.Y + (s.Height : ℚ) + 3
            then { n0 with Y := n0.Y + (3 + 3) } else n0)) := by
      unfold Model.AddSiblingNode
      dsimp only
      rw [hs]
      dsimp only
      rw [if_neg hroot]
      dsimp only
      split
      case isTrue hpe =>
        rw [AddEdge_nodes_core]
        dsimp only
        rw [lookupNode_mapInsert, if_neg hkid, nodes_if_nci, lookupNode_pushDown,
          show lookupNode ({ m with NextID := m.NextID + 1 } : Model).Nodes k
              = lookupNode m.Nodes k from rfl, hk0]
        rfl
      case isFalse hpe =>
        dsimp only
        rw [lookupNode_mapInsert, if_neg hkid, nodes_if_nci, lookupNode_pushDown,
          show lookupNode ({ m with NextID := m.NextID + 1 } : Model).Nodes k
              = lookupNode m.Nodes k from rfl, hk0]
        rfl
    obtain ⟨n', hn', hc⟩ := core_some_ex hchain
    simp only [nodeCore, Prod.mk.injEq] at hc
    obtain ⟨_, _, hX, hY, _, _, _, _⟩ := hc
    refine ⟨n', hn', ?_, ?_⟩
    · rw [hX]
      split <;> rfl
    · rw [hY]
      split <;> rfl

/-- Witness for C3 on the concrete push-down document: creating a
sibling of node 1 moves node 2 (at y = 10, below the threshold 6) down by
exactly 6. -/
theorem placement_pushes_pre_existing_w :
    ∃ n', lookupNode (mPushDown.AddSiblingNode "w").Nodes "2" = some n' ∧
      n'.X = exBelow.X ∧
      n'.Y = (if exBelow.Y ≥ exBranchA.Y + (exBranchA.Height : ℚ) + 3
              then exBelow.Y + (3 + 3) else exBelow.Y) :=
  (placement_pushes_pre_existing mPushDown "w" exBranchA (by with_unfolding_all decide)
      (by with_unfolding_all decide)).2
    (by decide) "2" exBelow (by with_unfolding_all decide)

/-- Witness for C2 on the concrete document: the new child of the tall
root lands at x = 0 + 16 + 5 and 3 below the lowest bottom edge. -/
theorem addChildNode_placement_w :
    ∃ n, lookupNode (mShortChild.AddChildNode "y").Nodes (toString mShortChild.NextID) = some n ∧
      n.X = exTallRoot.X + (exTallRoot.Width : ℚ) + 5 ∧
      n.Y = (if 0 < (mShortChild.GetChildrenOf exTallRoot.ID).length
             then maxBottom exTallRoot (mShortChild.GetChildrenOf exTallRoot.ID) + 3
             else exTallRoot.Y) :=
  addChildNode_placement mShortChild "y" exTallRoot (by with_unfolding_all decide)

/-! ## Deletion (claim C8) -/

/-- A document with the root, two children and three edges, node 1
selected. -/
def mDelete : Model :=
  { NewModel with
    Nodes := [("0", exRoot), ("1", exBranchA), ("2", exBelow)]
    Edges := [Edge.mk "0" "1", Edge.mk "0" "2", Edge.mk "1" "2"]
    Selected := "1"
    NextID := 3 }

/-- Counterexample to claim C8 as stated: the claim quantifies over every
node identity present in the document, but DeleteNode on the root "0" is
a guarded no-op — the root node stays and the edges touching "0" are not
removed. -/
theorem deleteNode_root_protected_example :
    Edge.mk "0" "1" ∈ (mDelete.DeleteNode "0").Edges ∧
      lookupNode (mDelete.DeleteNode "0").Nodes "0" ≠ none := by
  with_unfolding_all decide

/-- Claim C8 as amended: for every non-root identity present in the
document (DeleteNode on the protected root "0" changes nothing but the
status message), DeleteNode removes exactly the edges whose source or
target is that identity, leaves every other node entry (all fields) and
every other edge unchanged, and reassigns selection to some remaining
node exactly when the deleted node was selected and the document is still
non-empty. -/
theorem deleteNode_spec (m : Model) (id : String) (hroot : id ≠ "0")
    (hpres : lookupNode m.Nodes id ≠ none) :
    (∀ e : Edge, e ∈ (m.DeleteNode id).Edges ↔
        (e ∈ m.Edges ∧ e.FromID ≠ id ∧ e.ToID ≠ id)) ∧
    (∀ k, k ≠ id → lookupNode (m.DeleteNode id).Nodes k = lookupNode m.Nodes k) ∧
    lookupNode (m.DeleteNode id).Nodes id = none ∧
    (m.Selected = id → (m.DeleteNode id).Nodes ≠ [] →
      ∃ n, lookupNode (m.DeleteNode id).Nodes (m.DeleteNode id).Selected = some n) ∧
    (m.Selected = id → (m.DeleteNode id).Nodes = [] → (m.DeleteNode id).Selected = "") ∧
    (m.Selected ≠ id → (m.DeleteNode id).Selected = m.Selected) := by
  have hNodes : (m.DeleteNode id).Nodes = m.Nodes.filter (fun p => p.1 ≠ id) := by
    unfold Model.DeleteNode
    rw [if_neg hroot]
    dsimp only
    split <;> rfl
  have hEdges : (m.DeleteNode id).Edges
      = m.Edges.filter (fun e => e.FromID ≠ id ∧ e.ToID ≠ id) := by
    unfold Model.DeleteNode
    rw [if_neg hroot]
    dsimp only
    split <;> rfl
  have hSel : (m.DeleteNode id).Selected
      = (if m.Selected = id then
          (match m.Nodes.filter (fun p => p.1 ≠ id) with
           | [] => ""
           | p :: _ => p.1)
         else m.Selected) := by
    unfold Model.DeleteNode
    rw [if_neg hroot]
    dsimp only
    split <;> rfl
  refine ⟨?_, ?_, ?_, ?_, ?_, ?_⟩
  · intro e
    rw [hEdges, List.mem_filter]
    simp only [decide_eq_true_eq]
  · intro k hk
    rw [hNodes, lookupNode_filter_ne m.Nodes id k hk]
  · rw [hNodes, lookupNode_filter_self]
  · intro hsel hne
    rw [hNodes] at hne ⊢
    rw [hSel, if_pos hsel]
    cases hf : m.Nodes.filter (fun p => p.1 ≠ id) with
    | nil => exact absurd hf hne
    | cons p rest =>
      rw [lookupNode_cons, if_pos rfl]
      exact ⟨p.2, rfl⟩
  · intro hsel hnil
    rw [hNodes] at hnil
    rw [hSel, if_pos hsel, hnil]
  · intro hsel
    rw [hSel, if_neg hsel]

/-- Witness for C8 on the concrete document, deleting the selected node
1: the untouched edge membership, the untouched node 2, the removal of
node 1, and the reassigned selection. -/
theorem deleteNode_spec_w :
    (Edge.mk "0" "2" ∈ (mDelete.DeleteNode "1").Edges ↔
        (Edge.mk "0" "2" ∈ mDelete.Edges ∧ ("0" : String) ≠ "1" ∧ ("2" : String) ≠ "1")) ∧
      lookupNode (mDelete.DeleteNode "1").Nodes "2" = lookupNode mDelete.Nodes "2" ∧
      lookupNode (mDelete.DeleteNode "1").Nodes "1" = none ∧
      (∃ n, lookupNode (mDelete.DeleteNode "1").Nodes (mDelete.DeleteNode "1").Selected
          = some n) :=
  have h := deleteNode_spec mDelete "1" (by decide) (by with_unfolding_all decide)
  ⟨h.1 (Edge.mk "0" "2"), h.2.1 "2" (by decide), h.2.2.1,
    h.2.2.2.1 rfl (by with_unfolding_all decide)⟩

/-! ## Directional selection (claim C9) -/

theorem absFloat_nonneg (x : ℚ) : 0 ≤ absFloat x := by
  unfold absFloat
  split <;> linarith

theorem dirScore_nonneg (dx dy cx cy : ℚ) (n : Node) (sc : ℚ)
    (h : dirScore dx dy cx cy n = some sc) : 0 ≤ sc := by
  unfold dirScore at h
  dsimp only at h
  split at h
  · split at h
    · injection h with h
      subst h
      have h1 := absFloat_nonneg (n.GetCenter.2 - cy)
      have h2 := absFloat_nonneg (n.GetCenter.1 - cx)
      linarith
    · exact Option.noConfusion h
  · split at h
    · split at h
      · injection h with h
        subst h
        have h1 := absFloat_nonneg (n.GetCenter.2 - cy)
        have h2 := absFloat_nonneg (n.GetCenter.1 - cx)
        linarith
      · exact Option.noConfusion h
    · exact Option.noConfusion h

theorem foldl_selStep_spec (selId : String) (dx dy cx cy : ℚ) (nodes : List Node) :
    (nodes.foldl (selStep selId dx dy cx cy) (none, -1) = (none, -1) ∧
      ∀ nd ∈ nodes, nd.ID ≠ selId → dirScore dx dy cx cy nd = none) ∨
    (∃ nb sc, nodes.foldl (selStep selId dx dy cx cy) (none, -1) = (some nb, sc) ∧
      nb ∈ nodes ∧ nb.ID ≠ selId ∧ dirScore dx dy cx cy nb = some sc ∧ 0 ≤ sc ∧
      ∀ nd ∈ nodes, nd.ID ≠ selId → ∀ s', dirScore dx dy cx cy nd = some s' → sc ≤ s') := by
  induction nodes using List.reverseRecOn with
  | nil =>
    left
    exact ⟨rfl, by simp⟩
  | append_singleton nodes nd ih =>
    rw [List.foldl_append, List.foldl_cons, List.foldl_nil]
    rcases ih with ⟨hfold, hnone⟩ | ⟨nb, sc, hfold, hmem, hid, hscore, hnn, hmin⟩
    · rw [hfold]
      unfold selStep
      by_cases hidnd : nd.ID = selId
      · rw [if_pos hidnd]
        left
        refine ⟨rfl, ?_⟩
        intro x hx hxid
        rcases List.mem_append.mp hx with hx | hx
        · exact hnone x hx hxid
        · rw [List.mem_singleton] at hx
          subst hx
          exact absurd hidnd hxid
      · rw [if_neg hidnd]
        cases hds : dirScore dx dy cx cy nd with
        | none =>
          left
          refine ⟨rfl, ?_⟩
          intro x hx hxid
          rcases List.mem_append.mp hx with hx | hx
          · exact hnone x hx hxid
          · rw [List.mem_singleton] at hx
            subst hx
            exact hds
        | some s =>
          right
          dsimp only
          rw [if_pos (Or.inl (by norm_num))]
          refine ⟨nd, s, rfl, List.mem_append.mpr (Or.inr (List.mem_singleton.mpr rfl)),
            hidnd, hds, dirScore_nonneg dx dy cx cy nd s hds, ?_⟩
          intro x hx hxid s' hx'
          rcases List.mem_append.mp hx with hx | hx
          · rw [hnone x hx hxid] at hx'
            exact Option.noConfusion hx'
          · rw [List.mem_singleton] at hx
            subst hx
            rw [hds] at hx'
            injection hx' with e
            exact le_of_eq e
    · rw [hfold]
      unfold selStep
      by_cases hidnd : nd.ID = selId
      · rw [if_pos hidnd]
        right
        refine ⟨nb, sc, rfl, List.mem_append.mpr (Or.inl hmem), hid, hscore, hnn, ?_⟩
        intro x hx hxid s' hx'
        rcases List.mem_append.mp hx with hx | hx
        · exact hmin x hx hxid s' hx'
        · rw [List.mem_singleton] at hx
          subst hx
          exact absurd hidnd hxid
      · rw [if_neg hidnd]
        cases hds : dirScore dx dy cx cy nd with
        | none =>
          right
          refine ⟨nb, sc, rfl, List.mem_append.mpr (Or.inl hmem), hid, hscore, hnn, ?_⟩
          intro x hx hxid s' hx'
          rcases List.mem_append.mp hx with hx | hx
          · exact hmin x hx hxid s' hx'
          · rw [List.mem_singleton] at hx
            subst hx
            rw [hds] at hx'
            exact Option.noConfusion hx'
        | some s =>
          dsimp only
          by_cases hlt : s < sc
          · rw [if_pos (Or.inr hlt)]
            right
            refine ⟨nd, s, rfl, List.mem_append.mpr (Or.inr (List.mem_singleton.mpr rfl)),
              hidnd, hds, dirScore_nonneg dx dy cx cy nd s hds, ?_⟩
            intro x hx hxid s' hx'
            rcases List.mem_append.mp hx with hx | hx
            · have := hmin x hx hxid s' hx'
              linarith
            · rw [List.mem_singleton] at hx
              subst hx
              rw [hds] at hx'
              injection hx' with e
              exact le_of_eq e
          · rw [if_neg (not_or.mpr ⟨not_lt.mpr hnn, hlt⟩)]
            right
            refine ⟨nb, sc, rfl, List.mem_append.mpr (Or.inl hmem), hid, hscore, hnn, ?_⟩
            intro x hx hxid s' hx'
            rcases List.mem_append.mp hx with hx | hx
            · exact hmin x hx hxid s' hx'
            · rw [List.mem_singleton] at hx
              subst hx
              rw [hds] at hx'
              injection hx' with e
              subst e
              exact le_of_not_lt hlt

/-- The selected node of the concrete directional example, center (0,0). -/
def exCenterA : Node := { NewNode "A" "" 0 0 with Width := 0, Height := 0 }

/-- A candidate with center (5, 0): aligned, score 5. -/
def exRightB : Node := { NewNode "B" "" 5 0 with Width := 0, Height := 0 }

/-- A candidate with center (5, 3): misaligned, score 3 * 2 + 5 = 11. -/
def exRightC : Node := { NewNode "C" "" 5 3 with Width := 0, Height := 0 }

/-- The concrete directional-selection document of the claim. -/
def mSelect : Model :=
  { NewModel with
    Nodes := [("A", exCenterA), ("B", exRightB), ("C", exRightC)]
    Selected := "A" }

/-- Claim C9: with a unit axis direction, selectNodeInDirection considers
eligible exactly the nodes with a strictly-positive relative center
coordinate on the requested side (dirScore is some), scores each as
perpendicular distance * 2 + axial distance, keeps the selection
unchanged when no node is eligible, otherwise selects a node whose score
is minimal among the eligible candidates; and concretely, from
A = (0,0) with B = (5,0) and C = (5,3) to the right, moving right selects
B (score 5) over C (score 11). -/
theorem selectNodeInDirection_spec (m : Model) (dx dy : ℚ) (s : Node)
    (hs : m.GetSelectedNode = some s)
    (hdir : (dx, dy) = ((1 : ℚ), (0 : ℚ)) ∨ (dx, dy) = (-1, 0) ∨
      (dx, dy) = (0, 1) ∨ (dx, dy) = (0, -1)) :
    ((∀ nd ∈ m.Nodes.map Prod.snd, nd.ID ≠ m.Selected →
        dirScore dx dy s.GetCenter.1 s.GetCenter.2 nd = none) →
      m.selectNodeInDirection dx dy = m) ∧
    ((∃ nd0 ∈ m.Nodes.map Prod.snd, nd0.ID ≠ m.Selected ∧
        dirScore dx dy s.GetCenter.1 s.GetCenter.2 nd0 ≠ none) →
      ∃ nb sc, nb ∈ m.Nodes.map Prod.snd ∧ nb.ID ≠ m.Selected ∧
        dirScore dx dy s.GetCenter.1 s.GetCenter.2 nb = some sc ∧
        (∀ nd ∈ m.Nodes.map Prod.snd, nd.ID ≠ m.Selected →
          ∀ s', dirScore dx dy s.GetCenter.1 s.GetCenter.2 nd = some s' → sc ≤ s') ∧
        (m.selectNodeInDirection dx dy).Selected = nb.ID) ∧
    (mSelect.selectNodeInDirection 1 0).Selected = "B" := by
  refine ⟨?_, ?_, by with_unfolding_all decide⟩
  · intro hno
    unfold Model.selectNodeInDirection
    dsimp only
    rw [hs]
    dsimp only
    rcases foldl_selStep_spec m.Selected dx dy s.GetCenter.1 s.GetCenter.2
        (m.Nodes.map Prod.snd) with ⟨hfold, -⟩ | ⟨nb, sc, hfold, hmem, hid, hscore, -, -⟩
    · rw [hfold]
    · rw [hno nb hmem hid] at hscore
      exact Option.noConfusion hscore
  · rintro ⟨nd0, hnd0, hnid, hscne⟩
    unfold Model.selectNodeInDirection
    dsimp only
    rw [hs]
    dsimp only
    rcases foldl_selStep_spec m.Selected dx dy s.GetCenter.1 s.GetCenter.2
        (m.Nodes.map Prod.snd) with ⟨hfold, hnone⟩ | ⟨nb, sc, hfold, hmem, hid, hscore, hnn, hmin⟩
    · exact absurd (hnone nd0 hnd0 hnid) hscne
    · rw [hfold]
      exact ⟨nb, sc, hmem, hid, hscore, hmin, rfl⟩

/-- Witness for C9: in the concrete document, moving right from A selects
B. -/
theorem selectNodeInDirection_spec_w :
    (mSelect.selectNodeInDirection 1 0).Selected = "B" :=
  (selectNodeInDirection_spec mSelect 1 0 exCenterA (by with_unfolding_all decide)
    (Or.inl rfl)).2.2

/-! ## Coloring rule (claim C7) -/

/-- A node-creating user action: Tab creates a child of the selection,
Enter creates a sibling (update.go handleEditMode). -/
inductive LayoutOp where
  | child (text : String)
  | sibling (text : String)
deriving Repr, DecidableEq

/-- Apply one creation action. -/
def applyOp (m : Model) : LayoutOp → Model
  | .child t => m.AddChildNode t
  | .sibling t => m.AddSiblingNode t

/-- Apply a sequence of creation actions in order. -/
def applyOps (m : Model) : List LayoutOp → Model
  | [] => m
  | op :: ops => applyOps (applyOp m op) ops

/-- Whether an action creates a node directly under the root: a child of
the selected root, or a sibling of a selected root child (a sibling of
the root itself falls back to child-of-root). -/
def isRootCreation (m : Model) (op : LayoutOp) : Bool :=
  match m.GetSelectedNode, op with
  | none, _ => false
  | some s, .child _ => decide (s.ID = "0")
  | some s, .sibling _ => decide (s.ID = "0" ∨ s.ParentID = "0")

/-- How many actions of the sequence create a node directly under the
root. -/
def countRootCreations (m : Model) : List LayoutOp → Nat
  | [] => 0
  | op :: ops => (if isRootCreation m op then 1 else 0) + countRootCreations (applyOp m op) ops

theorem AddChildNode_palette (m : Model) (t : String) :
    (m.AddChildNode t).ColorPalette = m.ColorPalette := by
  unfold Model.AddChildNode
  dsimp only
  cases h : ({ m with NextID := m.NextID + 1 } : Model).GetSelectedNode with
  | none =>
    dsimp only
    rw [(addChildFinish_misc _ _ _ _ _ _).2.1]
  | some s =>
    dsimp only
    split
    · rw [(addChildFinish_misc _ _ _ _ _ _).2.1]
      rfl
    · rw [(addChildFinish_misc _ _ _ _ _ _).2.1]

theorem AddSiblingNode_palette (m : Model) (t : String) :
    (m.AddSiblingNode t).ColorPalette = m.ColorPalette := by
  unfold Model.AddSiblingNode
  dsimp only
  cases h : m.GetSelectedNode with
  | none =>
    dsimp only
    exact AddChildNode_palette m t
  | some s =>
    dsimp only
    split
    · exact AddChildNode_palette m t
    · dsimp only
      split
      · rw [(AddEdge_misc _ _ _).2.1]
        dsimp only
        split <;> rfl
      · dsimp only
        split <;> rfl

theorem applyOps_palette (ops : List LayoutOp) : ∀ m : Model,
    (applyOps m ops).ColorPalette = m.ColorPalette := by
  induction ops with
  | nil => intro m; rfl
  | cons op ops ih =>
    intro m
    rw [show applyOps m (op :: ops) = applyOps (applyOp m op) ops from rfl, ih]
    cases op with
    | child t => exact AddChildNode_palette m t
    | sibling t => exact AddSiblingNode_palette m t

theorem applyOp_nci (m : Model) (op : LayoutOp) :
    (applyOp m op).NextColorIndex
      = m.NextColorIndex + (if isRootCreation m op then 1 else 0) := by
  cases op with
  | child t =>
    unfold applyOp isRootCreation Model.AddChildNode
    dsimp only
    rw [show ({ m with NextID := m.NextID + 1 } : Model).GetSelectedNode = m.GetSelectedNode
      from rfl]
    cases h : m.GetSelectedNode with
    | none =>
      dsimp only
      rw [(addChildFinish_misc _ _ _ _ _ _).1, if_neg (by decide)]
      simp
    | some s =>
      dsimp only
      split
      · rw [(addChildFinish_misc _ _ _ _ _ _).1]
        by_cases h0 : s.ID = "0" <;> simp [h0, Model.pushDownNodesBelow]
      · rw [(addChildFinish_misc _ _ _ _ _ _).1]
        by_cases h0 : s.ID = "0" <;> simp [h0, Model.pushDownNodesBelow]
  | sibling t =>
    unfold applyOp isRootCreation Model.AddSiblingNode
    dsimp only
    cases h : m.GetSelectedNode with
    | none =>
      dsimp only
      unfold Model.AddChildNode
      dsimp only
      rw [show ({ m with NextID := m.NextID + 1 } : Model).GetSelectedNode = m.GetSelectedNode
        from rfl, h]
      dsimp only
      rw [(addChildFinish_misc _ _ _ _ _ _).1, if_neg (by decide)]
      simp
    | some s =>
      dsimp only
      by_cases h0 : s.ID = "0"
      · rw [if_pos h0]
        unfold Model.AddChildNode
        dsimp only
        rw [show ({ m with NextID := m.NextID + 1 } : Model).GetSelectedNode = m.GetSelectedNode
          from rfl, h]
        dsimp only
        split
        · rw [(addChildFinish_misc _ _ _ _ _ _).1, if_pos h0]
          simp [h0, Model.pushDownNodesBelow]
        · rw [(addChildFinish_misc _ _ _ _ _ _).1, if_pos h0]
          simp [h0, Model.pushDownNodesBelow]
      · rw [if_neg h0]
        dsimp only
        split
        · rw [(AddEdge_misc _ _ _).1]
          dsimp only
          split
          next hp => simp [h0, hp, Model.pushDownNodesBelow]
          next hp => simp [h0, hp, Model.pushDownNodesBelow]
        · dsimp only
          split
          next hp => simp [h0, hp, Model.pushDownNodesBelow]
          next hp => simp [h0, hp, Model.pushDownNodesBelow]

theorem applyOps_nci (ops : List LayoutOp) : ∀ m : Model,
    (applyOps m ops).NextColorIndex = m.NextColorIndex + countRootCreations m ops := by
  induction ops with
  | nil => intro m; rfl
  | cons op ops ih =>
    intro m
    rw [show applyOps m (op :: ops) = applyOps (applyOp m op) ops from rfl, ih, applyOp_nci,
      show countRootCreations m (op :: ops)
        = (if isRootCreation m op then 1 else 0) + countRootCreations (applyOp m op) ops
        from rfl]
    omega

theorem addChildFinish_color_root (mf : Model) (id text : String) (x y : ℚ) :
    ∃ n, lookupNode (addChildFinish mf id text x y "0").Nodes id = some n ∧
      n.Color = mf.ColorPalette.getD (mf.NextColorIndex % mf.ColorPalette.length) "" := by
  obtain ⟨n, hn, hcore⟩ := addChildFinish_lookup_self mf id text x y "0"
  simp only [nodeCore, Prod.mk.injEq] at hcore
  exact ⟨n, hn, by rw [hcore.2.2.2.2.2.2.2, addChildNodeVal_color_root]⟩

theorem AddChildNode_root_color (m : Model) (t : String) (s : Node)
    (hgs : m.GetSelectedNode = some s) (h0 : s.ID = "0") :
    ∃ n, lookupNode (m.AddChildNode t).Nodes (toString m.NextID) = some n ∧
      n.Color = m.ColorPalette.getD (m.NextColorIndex % m.ColorPalette.length) "" := by
  unfold Model.AddChildNode
  dsimp only
  rw [show ({ m with NextID := m.NextID + 1 } : Model).GetSelectedNode = m.GetSelectedNode
    from rfl, hgs]
  dsimp only
  rw [h0]
  split
  · exact addChildFinish_color_root _ _ _ _ _
  · exact addChildFinish_color_root _ _ _ _ _

theorem applyOp_root_color (m : Model) (op : LayoutOp) (h : isRootCreation m op = true) :
    ∃ n, lookupNode (applyOp m op).Nodes (toString m.NextID) = some n ∧
      n.Color = m.ColorPalette.getD (m.NextColorIndex % m.ColorPalette.length) "" := by
  cases op with
  | child t =>
    unfold isRootCreation at h
    cases hgs : m.GetSelectedNode with
    | none =>
      rw [hgs] at h
      exact absurd h (by simp)
    | some s =>
      rw [hgs] at h
      have h0 : s.ID = "0" := of_decide_eq_true h
      exact AddChildNode_root_color m t s hgs h0
  | sibling t =>
    unfold isRootCreation at h
    cases hgs : m.GetSelectedNode with
    | none =>
      rw [hgs] at h
      exact absurd h (by simp)
    | some s =>
      rw [hgs] at h
      have hor : s.ID = "0" ∨ s.ParentID = "0" := of_decide_eq_true h
      by_cases h0 : s.ID = "0"
      · have : m.AddSiblingNode t = m.AddChildNode t := by
          unfold Model.AddSiblingNode
          rw [hgs]
          dsimp only
          rw [if_pos h0]
        rw [show applyOp m (LayoutOp.sibling t) = m.AddSiblingNode t from rfl, this]
        exact AddChildNode_root_color m t s hgs h0
      · have hp : s.ParentID = "0" := hor.resolve_left h0
        have hchain : (lookupNode (m.AddSiblingNode t).Nodes (toString m.NextID)).map nodeCore
            = some (nodeCore (addSiblingNodeVal
                (({ m with NextID := m.NextID + 1 } : Model).pushDownNodesBelow
                  (s.Y + (s.Height : ℚ) + 3) (3 + 3))
                (toString m.NextID) t s.X (s.Y + (s.Height : ℚ) + 3) s)) := by
          unfold Model.AddSiblingNode
          dsimp only
          rw [hgs]
          dsimp only
          rw [if_neg h0]
          dsimp only
          split
          · rw [AddEdge_nodes_core]
            dsimp only
            rw [lookupNode_mapInsert, if_pos rfl]
            rfl
          · dsimp only
            rw [lookupNode_mapInsert, if_pos rfl]
            rfl
        obtain ⟨n, hn, hc⟩ := core_some_ex hchain
        simp only [nodeCore, Prod.mk.injEq] at hc
        refine ⟨n, hn, ?_⟩
        rw [hc.2.2.2.2.2.2.2, (addSiblingNodeVal_fields _ _ _ _ _ _).2.2.2.2.2.2.2, if_pos hp]
        rfl

theorem addChildNodeVal_color_of_pushed (m1 : Model) (ty amt : ℚ) (id text : String)
    (x y : ℚ) (pid : String) (h0 : pid ≠ "0") (hemp : pid ≠ "") (par : Node)
    (hpar : lookupNode m1.Nodes pid = some par) :
    (addChildNodeVal (m1.pushDownNodesBelow ty amt) id text x y pid).Color = par.Color := by
  have hp := lookupNode_pushDown m1 ty amt pid
  rw [hpar] at hp
  simp only [Option.map_some'] at hp
  rw [addChildNodeVal_color_parent _ _ _ _ _ _ h0 hemp _ hp]
  split <;> rfl

theorem AddChildNode_inherit_color (m : Model) (t : String) (s : Node)
    (hgs : m.GetSelectedNode = some s) (hcoh : s.ID = m.Selected) (h0 : s.ID ≠ "0") :
    ∃ n, lookupNode (m.AddChildNode t).Nodes (toString m.NextID) = some n ∧
      n.Color = s.Color := by
  have hsel_ne : m.Selected ≠ "" := by
    intro e
    unfold Model.GetSelectedNode at hgs
    rw [if_neg (fun hh : m.Selected ≠ "" => hh e)] at hgs
    exact Option.noConfusion hgs
  have hlook : lookupNode m.Nodes m.Selected = some s := by
    unfold Model.GetSelectedNode at hgs
    rwa [if_pos hsel_ne] at hgs
  have hlookid : lookupNode m.Nodes s.ID = some s := by
    rw [hcoh]
    exact hlook
  have hemp : s.ID ≠ "" := by
    rw [hcoh]
    exact hsel_ne
  unfold Model.AddChildNode
  dsimp only
  rw [show ({ m with NextID := m.NextID + 1 } : Model).GetSelectedNode = m.GetSelectedNode
    from rfl, hgs]
  dsimp only
  split
  · refine Exists.imp (fun n hn => ⟨hn.1, ?_⟩) (addChildFinish_lookup_self _ _ _ _ _ _)
    have hc := hn.2
    simp only [nodeCore, Prod.mk.injEq] at hc
    rw [hc.2.2.2.2.2.2.2,
      addChildNodeVal_color_of_pushed _ _ _ _ _ _ _ _ h0 hemp s
        (show lookupNode ({ m with NextID := m.NextID + 1 } : Model).Nodes s.ID = some s
          from hlookid)]
  · refine Exists.imp (fun n hn => ⟨hn.1, ?_⟩) (addChildFinish_lookup_self _ _ _ _ _ _)
    have hc := hn.2
    simp only [nodeCore, Prod.mk.injEq] at hc
    rw [hc.2.2.2.2.2.2.2,
      addChildNodeVal_color_parent _ _ _ _ _ _ h0 hemp s
        (show lookupNode ({ m with NextID := m.NextID + 1 } : Model).Nodes s.ID = some s
          from hlookid)]

theorem AddSiblingNode_inherit_color (m : Model) (t : String) (s : Node)
    (hgs : m.GetSelectedNode = some s) (h0 : s.ID ≠ "0") (hp0 : s.ParentID ≠ "0") :
    ∃ n, lookupNode (m.AddSiblingNode t).Nodes (toString m.NextID) = some n ∧
      n.Color = s.Color := by
  have hchain : (lookupNode (m.AddSiblingNode t).Nodes (toString m.NextID)).map nodeCore
      = some (nodeCore (addSiblingNodeVal
          (({ m with NextID := m.NextID + 1 } : Model).pushDownNodesBelow
            (s.Y + (s.Height : ℚ) + 3) (3 + 3))
          (toString m.NextID) t s.X (s.Y + (s.Height : ℚ) + 3) s)) := by
    unfold Model.AddSiblingNode
    dsimp only
    rw [hgs]
    dsimp only
    rw [if_neg h0]
    dsimp only
    split
    · rw [AddEdge_nodes_core]
      dsimp only
      rw [lookupNode_mapInsert, if_pos rfl]
      rfl
    · dsimp only
      rw [lookupNode_mapInsert, if_pos rfl]
      rfl
  obtain ⟨n, hn, hc⟩ := core_some_ex hchain
  simp only [nodeCore, Prod.mk.injEq] at hc
  refine ⟨n, hn, ?_⟩
  rw [hc.2.2.2.2.2.2.2, (addSiblingNodeVal_fields _ _ _ _ _ _).2.2.2.2.2.2.2, if_neg hp0]

theorem LoadFromFile_nci (m : Model) (d : MindMapData) :
    (m.LoadFromFile d).NextColorIndex = m.NextColorIndex := by
  unfold Model.LoadFromFile
  dsimp only
  split <;> rfl

/-- Claim C7: the sole coloring rule.  First conjunct: in any sequence of
node creations started on a document whose palette cursor is 0, a
creation that makes a node directly under the root (a child of the
selected root, or a sibling of a selected root child) gives the new node
palette color K mod paletteSize, where K is the number of root creations
performed before it, and (by applyOps_nci / applyOp_nci, used in the
proof) each such creation advances the cursor by exactly one while
non-root creations leave it alone.  Second and third conjuncts: any other
creation inherits the reference node's color exactly — the parent's for
child placement (under the well-formedness of reachable documents, the
selected entry's ID is the key it is stored under), the selected
sibling's for sibling placement.  Fourth conjunct: reloading a document
leaves the palette cursor untouched, so the rule keeps holding across
LoadFromFile (the counter continues; no repair at load time). -/
theorem coloring_rule :
    (∀ (m : Model) (ops : List LayoutOp) (op : LayoutOp),
        m.NextColorIndex = 0 →
        isRootCreation (applyOps m ops) op = true →
        ∃ n, lookupNode (applyOp (applyOps m ops) op).Nodes
            (toString (applyOps m ops).NextID) = some n ∧
          n.Color = m.ColorPalette.getD
            (countRootCreations m ops % m.ColorPalette.length) "") ∧
    (∀ (m : Model) (t : String) (s : Node), m.GetSelectedNode = some s →
        s.ID = m.Selected → s.ID ≠ "0" →
        ∃ n, lookupNode (m.AddChildNode t).Nodes (toString m.NextID) = some n ∧
          n.Color = s.Color) ∧
    (∀ (m : Model) (t : String) (s : Node), m.GetSelectedNode = some s →
        s.ID ≠ "0" → s.ParentID ≠ "0" →
        ∃ n, lookupNode (m.AddSiblingNode t).Nodes (toString m.NextID) = some n ∧
          n.Color = s.Color) ∧
    (∀ (m : Model) (d : MindMapData),
        (m.LoadFromFile d).NextColorIndex = m.NextColorIndex) := by
  refine ⟨?_, AddChildNode_inherit_color, AddSiblingNode_inherit_color, LoadFromFile_nci⟩
  intro m ops op h0 hroot
  obtain ⟨n, hn, hc⟩ := applyOp_root_color (applyOps m ops) op hroot
  refine ⟨n, hn, ?_⟩
  rw [hc, applyOps_palette ops m, applyOps_nci ops m, h0, Nat.zero_add]

/-- Witness for C7: from the fresh document, create a child of the root
(palette index 0), then a sibling of that child — a second root creation,
which receives palette color 1 mod 8. -/
theorem coloring_rule_w :
    ∃ n, lookupNode
        (applyOp (applyOps NewModel [LayoutOp.child "a"]) (LayoutOp.sibling "b")).Nodes
        (toString (applyOps NewModel [LayoutOp.child "a"]).NextID) = some n ∧
      n.Color = NewModel.ColorPalette.getD
        (countRootCreations NewModel [LayoutOp.child "a"] % NewModel.ColorPalette.length) "" :=
  coloring_rule.1 NewModel [LayoutOp.child "a"] (LayoutOp.sibling "b") rfl
    (by with_unfolding_all decide)
